import Mathlib

/-!
Verification of core GenomicSQLite routines (src/src/genomicsqlite.cc) via a
shallow embedding: SQL-generating functions become Lean string functions,
database-dependent routines are modelled over an explicit table model, and the
prepared-statement pool becomes an explicit transition system.
-/

/-- Mirrors split_schema_table (genomicsqlite.cc:486): split a possibly
schema-qualified table name at the first dot; the schema part keeps the dot. -/
def splitSchemaTable (qtable : String) : String × String :=
  let l := qtable.data
  if '.' ∈ l then
    let i := l.indexOf '.'
    (String.mk (l.take (i + 1)), String.mk (l.drop (i + 1)))
  else ("", qtable)

/-- A run of lv zero characters, mirroring the C++ string(lv, c-zero). -/
def zeros (lv : Nat) : String :=
  String.mk (List.replicate lv '0')

/-- Error kinds raised by the embedded routines (the C++ code throws
std::invalid_argument or runtime_error with corresponding messages). -/
inductive GriError where
  | invalidFloor
  | invalidFloorCeiling
  | missingGRI
  | griCorrupted
deriving DecidableEq, Repr

/-- The _gri_lvl CASE branches emitted by the loop in CreateGenomicRangeIndexSQL
(genomicsqlite.cc:514-518): n branches starting at level lv. -/
def lvlBranchesAux : Nat → Nat → String
  | _, 0 => ""
  | lv, n + 1 =>
    " WHEN _gri_len <= 0x1" ++ zeros lv ++ " THEN -" ++ toString lv ++
      lvlBranchesAux (lv + 1) n

/-- Branches for lv = floor .. 15, as in the source loop. -/
def lvlBranches (floor : Nat) : String :=
  lvlBranchesAux floor (16 - floor)

/-- Shallow embedding of CreateGenomicRangeIndexSQL (genomicsqlite.cc:494-523). -/
def createGenomicRangeIndexSQL (schema_table rid beg end_ : String) (floor : Int) :
    Except GriError String :=
  let table := (splitSchemaTable schema_table).2
  let floor := if floor = -1 then 0 else floor
  if 0 ≤ floor ∧ floor < 16 then
    .ok ("ALTER TABLE " ++ schema_table ++ " ADD COLUMN _gri_rid INTEGER AS (" ++ rid ++
      ") VIRTUAL" ++
      ";\nALTER TABLE " ++ schema_table ++ " ADD COLUMN _gri_beg INTEGER AS (" ++ beg ++
      ") VIRTUAL" ++
      ";\nALTER TABLE " ++ schema_table ++ " ADD COLUMN _gri_len INTEGER AS ((" ++ end_ ++
      ")-(" ++ beg ++ ")) VIRTUAL" ++
      ";\nALTER TABLE " ++ schema_table ++
      " ADD COLUMN _gri_lvl INTEGER AS (CASE WHEN _gri_len IS NULL OR _gri_len < 0 THEN NULL" ++
      lvlBranches floor.toNat ++
      " ELSE NULL END) VIRTUAL" ++
      ";\nCREATE INDEX " ++ schema_table ++ "__gri ON " ++ table ++
      "(_gri_rid, _gri_lvl, _gri_beg, _gri_len)")
  else .error .invalidFloor

/-- One per-level sub-query of the overlap query, as emitted inside the loop of
GenomicRangeRowidsSQL (genomicsqlite.cc:638-642). -/
def perLevelSQL (it table qrid qbeg qend : String) (lv : Nat) : String :=
  "SELECT _rowid_ FROM " ++ it ++ " INDEXED BY " ++ table ++ "__gri WHERE" ++
  "\n   (" ++ it ++ "._gri_rid," ++ it ++ "._gri_lvl," ++ it ++
  "._gri_beg) BETWEEN ((" ++ qrid ++ "),-" ++ toString lv ++ ",(" ++ qbeg ++
  ")-0x1" ++ zeros lv ++ ") AND ((" ++ qrid ++ "),-" ++ toString lv ++ ",(" ++
  qend ++ ")-0)" ++
  "\n   AND (" ++ it ++ "._gri_beg+" ++ it ++ "._gri_len) >= (" ++ qbeg ++ ")"

/-- The UNION ALL loop of GenomicRangeRowidsSQL, descending from the given
level down to floor, with the separator before every level below the top. -/
def unionLoop (it table qrid qbeg qend : String) (floor : Nat) : Nat → String
  | 0 => perLevelSQL it table qrid qbeg qend 0
  | lv + 1 =>
    if lv + 1 ≤ floor then perLevelSQL it table qrid qbeg qend (lv + 1)
    else
      perLevelSQL it table qrid qbeg qend (lv + 1) ++ "\n  UNION ALL\n  " ++
        unionLoop it table qrid qbeg qend floor lv

/-- Levels from ceiling down to floor, descending (the loop order of the source). -/
def levelsDesc (ceiling floor : Nat) : List Nat :=
  (List.range (ceiling + 1 - floor)).map (fun i => ceiling - i)

/-- Value of the hex numeral 0x1 followed by lv zeros, the literal the source
emits for the lower _gri_beg bound. -/
def hexOneZeros (lv : Nat) : Nat :=
  (List.replicate lv 0).foldl (fun acc d => 16 * acc + d) 1

/-- Concatenation of a list of strings, in order. -/
def joinStrings : List String → String
  | [] => ""
  | s :: rest => s ++ joinStrings rest

/-- Strings joined with a separator between consecutive elements. -/
def sepJoin (sep : String) : List String → String
  | [] => ""
  | [s] => s
  | s :: rest => s ++ sep ++ sepJoin sep rest

theorem sepJoin_cons_cons (sep s a : String) (l : List String) :
    sepJoin sep (s :: a :: l) = s ++ sep ++ sepJoin sep (a :: l) := rfl

theorem lvlBranchesAux_eq_join (n lv : Nat) :
    lvlBranchesAux lv n =
      joinStrings ((List.range' lv n).map
        (fun l => " WHEN _gri_len <= 0x1" ++ zeros l ++ " THEN -" ++ toString l)) := by
  induction n generalizing lv with
  | zero => simp [lvlBranchesAux, joinStrings]
  | succ n ih =>
    simp only [lvlBranchesAux, List.range', List.map_cons, joinStrings, ih]

theorem unionLoop_eq_sepJoin (it table qrid qbeg qend : String) (floor : Nat) :
    ∀ lv, floor ≤ lv →
      unionLoop it table qrid qbeg qend floor lv =
        sepJoin "\n  UNION ALL\n  "
          ((levelsDesc lv floor).map (perLevelSQL it table qrid qbeg qend)) := by
  intro lv
  induction lv with
  | zero =>
    intro h
    interval_cases floor
    simp [unionLoop, levelsDesc, sepJoin]
  | succ lv ih =>
    intro h
    rcases Nat.lt_or_ge lv floor with hlt | hge
    · have hf : floor = lv + 1 := le_antisymm h hlt
      subst hf
      have : levelsDesc (lv + 1) (lv + 1) = [lv + 1] := by
        simp [levelsDesc, List.range_succ]
      rw [this]
      simp [unionLoop, sepJoin]
    · have hstep : lv + 1 + 1 - floor = (lv + 1 - floor) + 1 := by omega
      have hnotle : ¬ lv + 1 ≤ floor := by omega
      have hmap :
          levelsDesc (lv + 1) floor = (lv + 1) :: levelsDesc lv floor := by
        simp only [levelsDesc, hstep, List.range_succ_eq_map]
        simp only [List.map_cons, Nat.sub_zero, List.map_map]
        congr 1
        apply List.map_congr_left
        intro i hi
        simp only [Function.comp_apply]
        have : i < lv + 1 - floor := List.mem_range.mp hi
        omega
      rw [unionLoop, if_neg hnotle, ih hge, hmap]
      cases hlev : levelsDesc lv floor with
      | nil =>
        exfalso
        simp [levelsDesc, List.range_eq_nil] at hlev
        omega
      | cons a l =>
        simp only [List.map_cons, sepJoin_cons_cons]

/-!
## Table model and level-range detector

A GRI-indexed table is modelled as a list of rows carrying the four generated
virtual columns (SQL NULL becomes Option.none). The detector
DetectLevelRange (genomicsqlite.cc:547-615) runs a recursive-CTE query whose
relational meaning over this model is: traverse the distinct non-null _gri_rid
values in ascending order and, for each, read the minimum and maximum
_gri_lvl among rows with that rid and _gri_lvl <= 0 (SQL three-valued logic
drops rows with NULL rid or NULL lvl); the client loop then folds min/max,
un-negating.
-/

structure GRIRow where
  rowid : Int
  rid : Option Int
  beg : Option Int
  len : Option Int
  lvl : Option Int
deriving DecidableEq, Repr

/-- Insert a rid into an ascending duplicate-free list (used to model the set
of distinct _gri_rid values the recursive CTE visits, in ascending order). -/
def insertRid (r : Int) : List Int → List Int
  | [] => [r]
  | x :: xs =>
    if r < x then r :: x :: xs
    else if r = x then x :: xs
    else x :: insertRid r xs

/-- Distinct non-null _gri_rid values of the table, ascending. -/
def distinctRids (t : List GRIRow) : List Int :=
  t.foldr (fun row acc => match row.rid with
    | none => acc
    | some r => insertRid r acc) []

/-- The _gri_lvl values of rows with the given non-null rid and _gri_lvl <= 0
(the WHERE clause of the two scalar sub-queries; NULL lvl rows drop out). -/
def ridLvls (t : List GRIRow) (r : Int) : List Int :=
  t.filterMap (fun row => match row.rid, row.lvl with
    | some r2, some v => if r2 = r ∧ v ≤ 0 then some v else none
    | _, _ => none)

/-- Minimum of a list (none when empty): the ORDER BY lvl LIMIT 1 subquery. -/
def listMin : List Int → Option Int :=
  List.foldl (fun acc v => match acc with
    | none => some v
    | some m => some (min m v)) none

/-- Maximum of a list (none when empty): the ORDER BY lvl DESC LIMIT 1 subquery. -/
def listMax : List Int → Option Int :=
  List.foldl (fun acc v => match acc with
    | none => some v
    | some m => some (max m v)) none

/-- One iteration of the client-side fold in DetectLevelRange
(genomicsqlite.cc:594-602): the accumulator is (min_lvl, max_lvl); column 0
is the most negative lvl of the rid, column 1 the least negative; un-negate. -/
def detectFoldStep (t : List GRIRow) (acc : Int × Int) (r : Int) : Int × Int :=
  let lvls := ridLvls t r
  let acc1 := match listMin lvls with
    | some v0 => (acc.1, max acc.2 (0 - v0))
    | none => acc
  match listMax lvls with
  | some v1 => (min acc1.1 (0 - v1), acc1.2)
  | none => acc1

/-- Shallow embedding of DetectLevelRange (genomicsqlite.cc:547-615). -/
def detectLevelRange (t : List GRIRow) : Except GriError (Int × Int) :=
  let folded := (distinctRids t).foldl (detectFoldStep t) (15, 0)
  let p := if folded = (15, 0) then ((0 : Int), (15 : Int)) else folded
  if 0 ≤ p.1 ∧ p.1 ≤ p.2 ∧ p.2 < 16 then .ok p else .error .griCorrupted

/-- DetectLevelRange through a possibly-null connection: with a null sqlite3
handle, sqlite3_prepare_v3 fails (SQLITE_MISUSE), so DetectLevelRange throws
its missing-GRI runtime_error (genomicsqlite.cc:585-588) without inspecting
any table. -/
def detectLevelRangeConn : Option (List GRIRow) → Except GriError (Int × Int)
  | none => .error .missingGRI
  | some t => detectLevelRange t

/-- Shallow embedding of GenomicRangeRowidsSQL (genomicsqlite.cc:617-656); the
connection argument is the table model the detector would inspect (none for a
null sqlite3 pointer). -/
def genomicRangeRowidsSQL (conn : Option (List GRIRow))
    (indexed_table qrid qbeg qend : String) (ceiling floor : Int) :
    Except GriError String :=
  let bounds : Except GriError (Int × Int) :=
    if ceiling < 0 then
      match detectLevelRangeConn conn with
      | .error e => .error e
      | .ok p => .ok (p.2, if 0 ≤ floor then floor else p.1)
    else if floor = -1 then .ok (ceiling, 0) else .ok (ceiling, floor)
  match bounds with
  | .error e => .error e
  | .ok (c, f) =>
    if 0 ≤ f ∧ f ≤ c ∧ c < 16 then
      let table := (splitSchemaTable indexed_table).2
      .ok ("(SELECT _rowid_ FROM\n (" ++
        unionLoop indexed_table table qrid qbeg qend f.toNat c.toNat ++
        ")\n ORDER BY _rowid_)")
    else .error .invalidFloorCeiling

/-- The effective (ceiling, floor) bounds after applying defaults and, when
ceiling is unspecified (negative), detection: stated from the description in
the spec of the overlap-query generator, for comparison with the embedded
generator. -/
def effectiveBounds (conn : Option (List GRIRow)) (ceiling floor : Int) :
    Except GriError (Int × Int) :=
  if ceiling < 0 then
    match detectLevelRangeConn conn with
    | .error e => .error e
    | .ok p => .ok (p.2, if 0 ≤ floor then floor else p.1)
  else if floor = -1 then .ok (ceiling, 0) else .ok (ceiling, floor)

/-- Relational semantics, over the table model, of the query emitted by
genomicRangeRowidsSQL: per level lv from ceiling down to floor, rows whose
(rid, lvl, beg) triple lies BETWEEN ((qrid),-lv,(qbeg)-16^lv) AND
((qrid),-lv,(qend)-0) - which for the row-value comparison means rid = qrid,
lvl = -lv and the beg range - and with beg + len >= qbeg; the outer
ORDER BY sorts the union by rowid. -/
def overlapQueryRows (t : List GRIRow) (ceiling floor : Nat)
    (qrid qbeg qend : Int) : List Int :=
  let levelRows := fun (lv : Nat) => t.filterMap (fun row =>
    match row.rid, row.lvl, row.beg, row.len with
    | some r, some v, some b, some l =>
      if r = qrid ∧ v = -(lv : Int) ∧ qbeg - (16 : Int) ^ lv ≤ b ∧ b ≤ qend ∧
          qbeg ≤ b + l then
        some row.rowid
      else none
    | _, _, _, _ => none)
  (((levelsDesc ceiling floor).map levelRows).flatten).mergeSort (· ≤ ·)

theorem hexOneZeros_eq (lv : Nat) : hexOneZeros lv = 16 ^ lv := by
  have key : ∀ n a, (List.replicate n 0).foldl (fun acc d => 16 * acc + d) a = a * 16 ^ n := by
    intro n
    induction n with
    | zero => intro a; simp
    | succ n ih =>
      intro a
      simp only [List.replicate_succ, List.foldl_cons, ih]
      ring
  simpa [hexOneZeros] using key lv 1

/-- Claim C1: for any GRI-indexed table name, query expressions and bounds with
0 <= floor <= ceiling <= 15, the overlap-query generator returns the
parenthesised SELECT of _rowid_ over the UNION ALL of per-level sub-queries,
one per level from ceiling down to floor in descending order, each constraining
(_gri_rid, _gri_lvl, _gri_beg) BETWEEN ((qrid),-lv,(qbeg)-0x1(lv zeros)) AND
((qrid),-lv,(qend)-0) and filtering (_gri_beg + _gri_len) >= (qbeg), under an
outer ORDER BY _rowid_; the hex literal subtracted in the lower bound denotes
16^lv. -/
theorem overlap_query_union_shape (conn : Option (List GRIRow))
    (tbl qrid qbeg qend : String) (ceiling floor : Int)
    (h : 0 ≤ floor ∧ floor ≤ ceiling ∧ ceiling ≤ 15) :
    genomicRangeRowidsSQL conn tbl qrid qbeg qend ceiling floor =
      .ok ("(SELECT _rowid_ FROM\n (" ++
        sepJoin "\n  UNION ALL\n  "
          ((levelsDesc ceiling.toNat floor.toNat).map
            (perLevelSQL tbl (splitSchemaTable tbl).2 qrid qbeg qend)) ++
        ")\n ORDER BY _rowid_)") ∧
    (∀ lv : Nat, hexOneZeros lv = 16 ^ lv) := by
  obtain ⟨h0, h1, h2⟩ := h
  refine ⟨?_, hexOneZeros_eq⟩
  have hc : ¬ ceiling < 0 := by omega
  have hf : ¬ floor = -1 := by omega
  have hv : 0 ≤ floor ∧ floor ≤ ceiling ∧ ceiling < 16 := by omega
  simp only [genomicRangeRowidsSQL, if_neg hc, if_neg hf, if_pos hv]
  have hle : floor.toNat ≤ ceiling.toNat := by omega
  rw [unionLoop_eq_sepJoin tbl (splitSchemaTable tbl).2 qrid qbeg qend
    floor.toNat ceiling.toNat hle]

/-- Witness for the C1 theorem at concrete inputs. -/
theorem overlap_query_union_shape_witness :
    genomicRangeRowidsSQL none "feat" "?1" "?2" "?3" 1 0 =
      .ok ("(SELECT _rowid_ FROM\n (" ++
        sepJoin "\n  UNION ALL\n  "
          ((levelsDesc (1 : Int).toNat (0 : Int).toNat).map
            (perLevelSQL "feat" (splitSchemaTable "feat").2 "?1" "?2" "?3")) ++
        ")\n ORDER BY _rowid_)") ∧
    (∀ lv : Nat, hexOneZeros lv = 16 ^ lv) :=
  overlap_query_union_shape none "feat" "?1" "?2" "?3" 1 0 (by norm_num)

/-- Count the occurrences of a nonempty pattern in a character list. -/
def countOcc (pat : List Char) : List Char → Nat
  | [] => 0
  | c :: rest => (if pat.isPrefixOf (c :: rest) then 1 else 0) + countOcc pat rest

set_option maxRecDepth 10000

/-- Whether pat occurs as a contiguous substring. -/
def hasInfix (pat : List Char) : List Char → Bool
  | [] => pat.isEmpty
  | c :: rest => pat.isPrefixOf (c :: rest) || hasInfix pat rest

/-- Claim C2: for every table name, rid/beg/end expressions and floor in
-1, 0..15, create_genomic_range_index_sql returns the script of exactly four
ALTER TABLE ... ADD COLUMN _gri_* ... VIRTUAL statements (rid, beg, len, lvl)
followed by CREATE INDEX table__gri ON bare-name(_gri_rid, _gri_lvl,
_gri_beg, _gri_len), joined by semicolon-newline, where the _gri_lvl CASE has
one branch WHEN _gri_len <= 0x1 followed by lv hex zeros THEN -lv for each lv
from the effective floor to 15; at the default-floor literal scenario the
script has exactly four ALTER statements, ends with the CREATE INDEX
statement, and contains the -10 branch substring. The output is a pure
function of the five inputs by construction. -/
theorem create_gri_sql_script (t r b e : String) (floor : Int)
    (h : floor = -1 ∨ (0 ≤ floor ∧ floor ≤ 15)) :
    (createGenomicRangeIndexSQL t r b e floor =
      .ok (sepJoin ";\n"
        ["ALTER TABLE " ++ t ++ " ADD COLUMN _gri_rid INTEGER AS (" ++ r ++ ") VIRTUAL",
         "ALTER TABLE " ++ t ++ " ADD COLUMN _gri_beg INTEGER AS (" ++ b ++ ") VIRTUAL",
         "ALTER TABLE " ++ t ++ " ADD COLUMN _gri_len INTEGER AS ((" ++ e ++ ")-(" ++ b ++
           ")) VIRTUAL",
         "ALTER TABLE " ++ t ++
           " ADD COLUMN _gri_lvl INTEGER AS (CASE WHEN _gri_len IS NULL OR _gri_len < 0 THEN NULL"
           ++ joinStrings (((List.range' (if floor = -1 then 0 else floor).toNat
                (16 - (if floor = -1 then 0 else floor).toNat))).map
              (fun lv => " WHEN _gri_len <= 0x1" ++ zeros lv ++ " THEN -" ++ toString lv))
           ++ " ELSE NULL END) VIRTUAL",
         "CREATE INDEX " ++ t ++ "__gri ON " ++ (splitSchemaTable t).2 ++
           "(_gri_rid, _gri_lvl, _gri_beg, _gri_len)"])) ∧
    (∃ s, createGenomicRangeIndexSQL "feat" "chrom_id" "beg" "end" (-1) = .ok s ∧
      countOcc ("ALTER TABLE feat ADD COLUMN _gri_").data s.data = 4 ∧
      ("CREATE INDEX feat__gri ON feat(_gri_rid, _gri_lvl, _gri_beg, _gri_len)").data.isSuffixOf
        s.data = true ∧
      hasInfix ("WHEN _gri_len <= 0x10000000000 THEN -10").data s.data = true) := by
  constructor
  · have hcond : (0 : Int) ≤ (if floor = -1 then 0 else floor) ∧
        (if floor = -1 then 0 else floor) < 16 := by
      rcases h with h | h
      · subst h; norm_num
      · have hne : floor ≠ -1 := by omega
        rw [if_neg hne]; omega
    have m1 : ∀ x : String,
        ") VIRTUAL;\n" ++ ("ALTER TABLE " ++ x) = ") VIRTUAL;\nALTER TABLE " ++ x := by
      intro x; rw [← String.append_assoc]; rfl
    have m2 : ∀ x : String,
        ")) VIRTUAL;\n" ++ ("ALTER TABLE " ++ x) = ")) VIRTUAL;\nALTER TABLE " ++ x := by
      intro x; rw [← String.append_assoc]; rfl
    have m3 : ∀ x : String,
        " ELSE NULL END) VIRTUAL;\n" ++ ("CREATE INDEX " ++ x) =
          " ELSE NULL END) VIRTUAL;\nCREATE INDEX " ++ x := by
      intro x; rw [← String.append_assoc]; rfl
    simp only [createGenomicRangeIndexSQL, if_pos hcond, lvlBranches,
      lvlBranchesAux_eq_join, sepJoin, Except.ok.injEq]
    simp [String.append_assoc, m1, m2, m3]
  · refine ⟨_, rfl, by decide, by decide, by decide⟩

/-- Witness for the C2 theorem at the literal scenario of the spec. -/
theorem create_gri_sql_script_witness :
    (createGenomicRangeIndexSQL "feat" "chrom_id" "beg" "end" (-1) =
      .ok (sepJoin ";\n"
        ["ALTER TABLE " ++ "feat" ++ " ADD COLUMN _gri_rid INTEGER AS (" ++ "chrom_id" ++
           ") VIRTUAL",
         "ALTER TABLE " ++ "feat" ++ " ADD COLUMN _gri_beg INTEGER AS (" ++ "beg" ++ ") VIRTUAL",
         "ALTER TABLE " ++ "feat" ++ " ADD COLUMN _gri_len INTEGER AS ((" ++ "end" ++ ")-(" ++
           "beg" ++ ")) VIRTUAL",
         "ALTER TABLE " ++ "feat" ++
           " ADD COLUMN _gri_lvl INTEGER AS (CASE WHEN _gri_len IS NULL OR _gri_len < 0 THEN NULL"
           ++ joinStrings (((List.range' ((if (-1 : Int) = -1 then 0 else (-1 : Int))).toNat
                (16 - ((if (-1 : Int) = -1 then 0 else (-1 : Int))).toNat))).map
              (fun lv => " WHEN _gri_len <= 0x1" ++ zeros lv ++ " THEN -" ++ toString lv))
           ++ " ELSE NULL END) VIRTUAL",
         "CREATE INDEX " ++ "feat" ++ "__gri ON " ++ (splitSchemaTable "feat").2 ++
           "(_gri_rid, _gri_lvl, _gri_beg, _gri_len)"])) ∧
    (∃ s, createGenomicRangeIndexSQL "feat" "chrom_id" "beg" "end" (-1) = .ok s ∧
      countOcc ("ALTER TABLE feat ADD COLUMN _gri_").data s.data = 4 ∧
      ("CREATE INDEX feat__gri ON feat(_gri_rid, _gri_lvl, _gri_beg, _gri_len)").data.isSuffixOf
        s.data = true ∧
      hasInfix ("WHEN _gri_len <= 0x10000000000 THEN -10").data s.data = true) :=
  create_gri_sql_script "feat" "chrom_id" "beg" "end" (-1) (Or.inl rfl)

theorem mem_insertRid_self (r : Int) (l : List Int) : r ∈ insertRid r l := by
  induction l with
  | nil => simp [insertRid]
  | cons x xs ih =>
    simp only [insertRid]
    split
    · simp
    · split
      · rename_i h1 h2
        simp [h2]
      · simp [ih]

theorem mem_insertRid_of_mem (x r : Int) (l : List Int) (h : x ∈ l) :
    x ∈ insertRid r l := by
  induction l with
  | nil => simp at h
  | cons y ys ih =>
    simp only [insertRid]
    rcases List.mem_cons.mp h with h | h
    · subst h
      split
      · simp
      · split <;> simp
    · split
      · simp [h]
      · split
        · simp [h]
        · simp [ih h]

theorem mem_distinctRids (t : List GRIRow) (row : GRIRow) (hrow : row ∈ t)
    (r : Int) (h : row.rid = some r) : r ∈ distinctRids t := by
  induction t with
  | nil => simp at hrow
  | cons hd tl ih =>
    simp only [distinctRids, List.foldr_cons]
    rcases List.mem_cons.mp hrow with he | he
    · subst he
      rw [h]
      exact mem_insertRid_self r _
    · cases hhd : hd.rid with
      | none => exact ih he
      | some r2 => exact mem_insertRid_of_mem r r2 _ (ih he)

theorem ridLvls_all (t : List GRIRow) (L : Int)
    (hall : ∀ row ∈ t, row.lvl ≠ none → row.lvl = some (-L)) :
    ∀ r v, v ∈ ridLvls t r → v = -L := by
  intro r v hv
  obtain ⟨row, hrow, hf⟩ := List.mem_filterMap.mp hv
  cases hrid : row.rid with
  | none => simp [hrid] at hf
  | some r2 =>
    cases hlvl : row.lvl with
    | none => simp [hrid, hlvl] at hf
    | some w =>
      have := hall row hrow (by simp [hlvl])
      rw [hlvl] at this
      have hw : w = -L := by injection this
      subst hw
      simp only [hrid, hlvl] at hf
      split at hf
      · exact (Option.some.inj hf).symm
      · exact absurd hf (by simp)

theorem mem_ridLvls (t : List GRIRow) (row : GRIRow) (hrow : row ∈ t)
    (r v : Int) (hrid : row.rid = some r) (hlvl : row.lvl = some v) (hv : v ≤ 0) :
    v ∈ ridLvls t r := by
  apply List.mem_filterMap.mpr
  exact ⟨row, hrow, by simp [hrid, hlvl, hv]⟩

theorem listMin_const (L : Int) :
    ∀ l : List Int, (∀ v ∈ l, v = L) →
      List.foldl (fun acc v => match acc with
        | none => some v
        | some m => some (min m v)) (some L) l = some L := by
  intro l
  induction l with
  | nil => intro _; rfl
  | cons x xs ih =>
    intro h
    have hx : x = L := h x (by simp)
    subst hx
    simp only [List.foldl_cons, min_self]
    exact ih (fun v hv => h v (by simp [hv]))

theorem listMin_uniform (l : List Int) (L : Int) (hne : l ≠ [])
    (h : ∀ v ∈ l, v = L) : listMin l = some L := by
  cases l with
  | nil => exact absurd rfl hne
  | cons x xs =>
    have hx : x = L := h x (by simp)
    subst hx
    simp only [listMin, List.foldl_cons]
    exact listMin_const x xs (fun v hv => h v (by simp [hv]))

theorem listMax_const (L : Int) :
    ∀ l : List Int, (∀ v ∈ l, v = L) →
      List.foldl (fun acc v => match acc with
        | none => some v
        | some m => some (max m v)) (some L) l = some L := by
  intro l
  induction l with
  | nil => intro _; rfl
  | cons x xs ih =>
    intro h
    have hx : x = L := h x (by simp)
    subst hx
    simp only [List.foldl_cons, max_self]
    exact ih (fun v hv => h v (by simp [hv]))

theorem listMax_uniform (l : List Int) (L : Int) (hne : l ≠ [])
    (h : ∀ v ∈ l, v = L) : listMax l = some L := by
  cases l with
  | nil => exact absurd rfl hne
  | cons x xs =>
    have hx : x = L := h x (by simp)
    subst hx
    simp only [listMax, List.foldl_cons]
    exact listMax_const x xs (fun v hv => h v (by simp [hv]))

theorem detectFoldStep_empty (t : List GRIRow) (acc : Int × Int) (r : Int)
    (h : ridLvls t r = []) : detectFoldStep t acc r = acc := by
  simp [detectFoldStep, h, listMin, listMax]

theorem detectFoldStep_uniform (t : List GRIRow) (L : Int) (a b r : Int)
    (hne : ridLvls t r ≠ []) (h : ∀ v ∈ ridLvls t r, v = -L) :
    detectFoldStep t (a, b) r = (min a L, max b L) := by
  simp only [detectFoldStep, listMin_uniform _ _ hne h, listMax_uniform _ _ hne h]
  simp

theorem fold_detect_stable (t : List GRIRow) (L : Int)
    (hall : ∀ r v, v ∈ ridLvls t r → v = -L) :
    ∀ (rs : List Int) (a b : Int),
      rs.foldl (detectFoldStep t) (min a L, max b L) = (min a L, max b L) := by
  intro rs
  induction rs with
  | nil => intro a b; rfl
  | cons r rs ih =>
    intro a b
    simp only [List.foldl_cons]
    by_cases hne : ridLvls t r = []
    · rw [detectFoldStep_empty t _ r hne]
      exact ih a b
    · rw [detectFoldStep_uniform t L _ _ r hne (hall r)]
      have e1 : min (min a L) L = min a L := by
        rw [min_assoc, min_self]
      have e2 : max (max b L) L = max b L := by
        rw [max_assoc, max_self]
      rw [e1, e2]
      exact ih a b

theorem fold_detect_uniform (t : List GRIRow) (L : Int)
    (hall : ∀ r v, v ∈ ridLvls t r → v = -L) :
    ∀ (rs : List Int) (a b : Int), (∃ r ∈ rs, ridLvls t r ≠ []) →
      rs.foldl (detectFoldStep t) (a, b) = (min a L, max b L) := by
  intro rs
  induction rs with
  | nil =>
    intro a b h
    simp at h
  | cons r rs ih =>
    intro a b h
    simp only [List.foldl_cons]
    by_cases hne : ridLvls t r = []
    · rw [detectFoldStep_empty t _ r hne]
      apply ih
      obtain ⟨r2, hr2, hr2ne⟩ := h
      rcases List.mem_cons.mp hr2 with he | he
      · subst he; exact absurd hne hr2ne
      · exact ⟨r2, he, hr2ne⟩
    · rw [detectFoldStep_uniform t L _ _ r hne (hall r)]
      exact fold_detect_stable t L hall rs a b

/-- Counterexample to claim C3 as stated: a table whose only row is indexed
(non-null _gri_lvl, level 2) but has NULL _gri_rid; the recursive-CTE
traversal visits no rid, so the detector returns the empty-table pair (0, 15)
rather than (2, 2). -/
theorem detect_level_range_nullrid_counterexample :
    detectLevelRange [⟨1, none, some 0, some 17, some (-2)⟩] = .ok (0, 15) ∧
    (∀ row ∈ [(⟨1, none, some 0, some 17, some (-2)⟩ : GRIRow)],
      row.lvl ≠ none → row.lvl = some (-2)) ∧
    ((0 : Int), (15 : Int)) ≠ ((2 : Int), (2 : Int)) := by
  refine ⟨rfl, by decide, by decide⟩

/-- Claim C3 (amended): for a GRI-indexed table in which every indexed row
(non-null _gri_lvl) has the same level L, 0 <= L <= 15, and at least one
indexed row has non-null _gri_rid (rows with NULL rid are invisible to the
detector's per-rid traversal), detect_level_range returns (L, L), un-negating
the stored levels; and on an empty table it returns (0, 15), with which the
generated overlap query over that empty table returns no rows. -/
theorem detect_level_range_uniform (t : List GRIRow) (L : Int)
    (hL : 0 ≤ L ∧ L ≤ 15)
    (hall : ∀ row ∈ t, row.lvl ≠ none → row.lvl = some (-L))
    (hex : ∃ row ∈ t, row.lvl ≠ none ∧ row.rid ≠ none) :
    detectLevelRange t = .ok (L, L) ∧
    (detectLevelRange [] = .ok (0, 15) ∧
      ∀ qrid qbeg qend : Int, overlapQueryRows [] 15 0 qrid qbeg qend = []) := by
  obtain ⟨hL0, hL15⟩ := hL
  refine ⟨?_, rfl, ?_⟩
  · obtain ⟨row, hrow, hlvl, hrid⟩ := hex
    obtain ⟨r, hr⟩ := Option.ne_none_iff_exists'.mp hrid
    have hrowlvl : row.lvl = some (-L) := hall row hrow hlvl
    have hallr : ∀ r2 v, v ∈ ridLvls t r2 → v = -L := ridLvls_all t L hall
    have hmem : r ∈ distinctRids t := mem_distinctRids t row hrow r hr
    have hlv : (-L) ∈ ridLvls t r :=
      mem_ridLvls t row hrow r (-L) hr hrowlvl (by omega)
    have hne : ridLvls t r ≠ [] := by
      intro hc
      rw [hc] at hlv
      simp at hlv
    have hfold : (distinctRids t).foldl (detectFoldStep t) (15, 0) =
        (min 15 L, max 0 L) :=
      fold_detect_uniform t L hallr (distinctRids t) 15 0 ⟨r, hmem, hne⟩
    have hminmax : (min (15 : Int) L, max (0 : Int) L) = (L, L) := by
      rw [min_eq_right hL15, max_eq_right hL0]
    have hswap : ¬ ((L, L) = ((15 : Int), (0 : Int))) := by
      intro hc
      rw [Prod.mk.injEq] at hc
      omega
    simp only [detectLevelRange, hfold, hminmax, if_neg hswap]
    have : 0 ≤ L ∧ L ≤ L ∧ L < 16 := by omega
    rw [if_pos this]
  · intro qrid qbeg qend
    have hf : ∀ l : List Nat, (l.map (fun _ => ([] : List Int))).flatten = [] := by
      intro l
      induction l with
      | nil => rfl
      | cons x xs ih => simp [ih]
    simp only [overlapQueryRows, levelsDesc, List.filterMap_nil, List.map_map,
      Function.comp_def]
    rw [hf]
    simp

/-- Witness for the C3 theorem at a concrete one-row, level-1 table. -/
theorem detect_level_range_uniform_witness :
    detectLevelRange [⟨1, some 3, some 0, some 20, some (-1)⟩] = .ok (1, 1) ∧
    (detectLevelRange [] = .ok (0, 15) ∧
      ∀ qrid qbeg qend : Int, overlapQueryRows [] 15 0 qrid qbeg qend = []) :=
  detect_level_range_uniform [⟨1, some 3, some 0, some 20, some (-1)⟩] 1
    (by decide) (by decide)
    ⟨⟨1, some 3, some 0, some 20, some (-1)⟩, by decide, by decide, by decide⟩

theorem detectLevelRange_error_is_corrupted (t : List GRIRow) (e : GriError)
    (h : detectLevelRange t = .error e) : e = .griCorrupted := by
  simp only [detectLevelRange] at h
  split at h
  · exact absurd h (by simp)
  · split at h
    · exact absurd h (by simp)
    · exact (Except.error.inj h).symm

theorem effectiveBounds_error_cases (conn : Option (List GRIRow))
    (ceiling floor : Int) (e : GriError)
    (h : effectiveBounds conn ceiling floor = .error e) :
    e = .missingGRI ∨ e = .griCorrupted := by
  unfold effectiveBounds at h
  split at h
  · cases hD : detectLevelRangeConn conn with
    | error e2 =>
      rw [hD] at h
      have he : e = e2 := (Except.error.inj h).symm
      subst he
      cases conn with
      | none =>
        left
        exact (Except.error.inj hD).symm
      | some t =>
        right
        exact detectLevelRange_error_is_corrupted t e hD
    | ok p =>
      rw [hD] at h
      exact absurd h (by simp)
  · split at h <;> exact absurd h (by simp)

theorem genomicRangeRowidsSQL_eq_match (conn : Option (List GRIRow))
    (tbl qrid qbeg qend : String) (ceiling floor : Int) :
    genomicRangeRowidsSQL conn tbl qrid qbeg qend ceiling floor =
      (match effectiveBounds conn ceiling floor with
       | .error e => .error e
       | .ok (c, f) =>
         if 0 ≤ f ∧ f ≤ c ∧ c < 16 then
           Except.ok ("(SELECT _rowid_ FROM\n (" ++
             unionLoop tbl (splitSchemaTable tbl).2 qrid qbeg qend f.toNat c.toNat ++
             ")\n ORDER BY _rowid_)")
         else .error .invalidFloorCeiling) := rfl

/-- Claim C4: the overlap-query generator raises InvalidFloorCeiling exactly
when the effective bounds - obtained after applying defaults and, for
unspecified ceiling, detection - violate 0 <= floor <= ceiling <= 15; with
valid effective bounds it returns a query string without error. -/
theorem overlap_query_invalid_floor_ceiling_iff (conn : Option (List GRIRow))
    (tbl qrid qbeg qend : String) (ceiling floor : Int) :
    (genomicRangeRowidsSQL conn tbl qrid qbeg qend ceiling floor =
        .error .invalidFloorCeiling ↔
      ∃ c f, effectiveBounds conn ceiling floor = .ok (c, f) ∧
        ¬ (0 ≤ f ∧ f ≤ c ∧ c ≤ 15)) ∧
    (∀ c f, effectiveBounds conn ceiling floor = .ok (c, f) →
      (0 ≤ f ∧ f ≤ c ∧ c ≤ 15) →
      ∃ q, genomicRangeRowidsSQL conn tbl qrid qbeg qend ceiling floor = .ok q) := by
  have hkey := genomicRangeRowidsSQL_eq_match conn tbl qrid qbeg qend ceiling floor
  cases hEB : effectiveBounds conn ceiling floor with
  | error e =>
    rw [hEB] at hkey
    refine ⟨⟨fun hc => ?_, fun hc => ?_⟩, fun c f hok => ?_⟩
    · rw [hkey] at hc
      have he : e = GriError.invalidFloorCeiling := Except.error.inj hc
      rcases effectiveBounds_error_cases conn ceiling floor e hEB with h | h <;>
        rw [h] at he <;> exact absurd he (by simp)
    · obtain ⟨c, f, hok, _⟩ := hc
      exact absurd hok (by simp)
    · exact absurd hok (by simp)
  | ok p =>
    obtain ⟨c, f⟩ := p
    rw [hEB] at hkey
    by_cases hv : 0 ≤ f ∧ f ≤ c ∧ c < 16
    · have hgen : genomicRangeRowidsSQL conn tbl qrid qbeg qend ceiling floor =
          Except.ok ("(SELECT _rowid_ FROM\n (" ++
            unionLoop tbl (splitSchemaTable tbl).2 qrid qbeg qend f.toNat c.toNat ++
            ")\n ORDER BY _rowid_)") := by
        rw [hkey]
        exact if_pos hv
      refine ⟨⟨fun hc => ?_, fun hc => ?_⟩, fun c2 f2 hok hv2 => ?_⟩
      · rw [hgen] at hc
        exact absurd hc (by simp)
      · obtain ⟨c2, f2, hok, hnv⟩ := hc
        have : c2 = c ∧ f2 = f := by
          have := Except.ok.inj hok
          exact ⟨(Prod.mk.injEq _ _ _ _).mp this.symm |>.1,
            (Prod.mk.injEq _ _ _ _).mp this.symm |>.2⟩
        obtain ⟨hc2, hf2⟩ := this
        subst hc2; subst hf2
        exact absurd ⟨hv.1, hv.2.1, by omega⟩ hnv
      · exact ⟨_, hgen⟩
    · have hgen : genomicRangeRowidsSQL conn tbl qrid qbeg qend ceiling floor =
          .error .invalidFloorCeiling := by
        rw [hkey]
        exact if_neg hv
      refine ⟨⟨fun _ => ⟨c, f, by simp, by omega⟩, fun _ => hgen⟩, fun c2 f2 hok hv2 => ?_⟩
      have heq := Except.ok.inj hok
      have hc2 : c2 = c := ((Prod.mk.injEq _ _ _ _).mp heq.symm).1
      have hf2 : f2 = f := ((Prod.mk.injEq _ _ _ _).mp heq.symm).2
      subst hc2; subst hf2
      exact absurd (by omega : 0 ≤ f2 ∧ f2 ≤ c2 ∧ c2 < 16) hv

/-- Claim C5 (code divergence): with a null connection and unspecified
(negative) ceiling, GenomicRangeRowidsSQL does not skip the level detector:
it calls DetectLevelRange on the null handle (genomicsqlite.cc:619-620),
whose statement preparation fails, so the call raises the missing-GRI error
instead of succeeding with the defaults; the explicit (ceiling 15, floor 0)
call on the same inputs succeeds. -/
theorem overlap_query_null_conn_divergence :
    genomicRangeRowidsSQL none "feat" "?1" "?2" "?3" (-1) (-1) =
      .error .missingGRI ∧
    ∃ q, genomicRangeRowidsSQL none "feat" "?1" "?2" "?3" 15 0 = .ok q :=
  ⟨rfl, ⟨_, rfl⟩⟩

/-!
## Connection wiring: configuration record, URI builder, tuning script

The merged configuration document is modelled as a record of the recognised
option fields with their default values (GenomicSQLiteDefaultConfigJSON plus
the mode key read with default empty, genomicsqlite.cc:61-76, 198); the
ConfigParser JSON machinery is the host engine's and is out of scope. The
urlencode function belongs to the external stacked-VFS library
(SQLiteNested::urlencode), so the URI builder is parameterised over it (the
Bool argument is its plus-encoding flag).
-/

structure Config where
  unsafe_load : Bool
  immutable : Bool
  page_cache_MiB : Int
  threads : Int
  force_prefetch : Bool
  zstd_level : Int
  inner_page_KiB : Int
  outer_page_KiB : Int
  mode : String
  web_log : Int
  web_insecure : Bool
  web_dbi_url : String
  web_nodbi : Bool
deriving DecidableEq, Repr

/-- The defaults of GenomicSQLiteDefaultConfigJSON (genomicsqlite.cc:61-76). -/
def defaultConfig : Config :=
  ⟨false, false, 1024, -1, false, 6, 16, 32, "", 2, false, "", false⟩

/-- The condition under which the URI builder appends noprefetch=1
(genomicsqlite.cc:193). -/
def noprefetchCond (cfg : Config) : Bool :=
  decide (1 < cfg.threads) && decide (cfg.inner_page_KiB < 16) && !cfg.force_prefetch

/-- The substr-prefix comparison dbfile.substr(0,n) == p of the source,
expressed on the character data. -/
def strHasPrefix (p s : String) : Bool :=
  p.data.isPrefixOf s.data

/-- Shallow embedding of GenomicSQLiteURI (genomicsqlite.cc:169-212). -/
def genomicSQLiteURI (urlencode : Bool → String → String) (dbfile : String)
    (cfg : Config) : String :=
  let web := strHasPrefix "http:" dbfile || strHasPrefix "https:" dbfile
  let uri := "file:" ++ (if web then "/__web__" else urlencode true dbfile) ++ "?vfs=zstd"
  let uri := if web then
      uri ++ "&mode=ro&immutable=1&web_url=" ++ urlencode false dbfile ++
      "&web_log=" ++ toString cfg.web_log ++
      (if cfg.web_insecure then "&web_insecure=1" else "") ++
      (if cfg.web_nodbi then "&web_nodbi=1"
       else if cfg.web_dbi_url ≠ "" then "&web_dbi_url=" ++ urlencode false cfg.web_dbi_url
       else "")
    else uri
  let uri := uri ++ "&outer_cache_size=" ++ toString (-64 * cfg.page_cache_MiB) ++
    "&threads=" ++ toString cfg.threads
  let uri := if noprefetchCond cfg then uri ++ "&noprefetch=1" else uri
  if web then uri
  else
    uri ++ (if cfg.mode ≠ "" then "&mode=" ++ cfg.mode else "") ++
    "&outer_page_size=" ++ toString (cfg.outer_page_KiB * 1024) ++
    "&level=" ++ toString cfg.zstd_level ++
    (if cfg.immutable then "&immutable=1" else "") ++
    (if cfg.unsafe_load then "&nolock=1&outer_unsafe" else "")

/-- The non-web URI parameter strings in the order the source emits them, each
with its leading ampersand; stated from the claim wording for comparison with
the embedded builder. -/
def uriTailParams (cfg : Config) : List String :=
  ["&outer_cache_size=" ++ toString (-64 * cfg.page_cache_MiB),
   "&threads=" ++ toString cfg.threads] ++
  (if noprefetchCond cfg then ["&noprefetch=1"] else []) ++
  (if cfg.mode ≠ "" then ["&mode=" ++ cfg.mode] else []) ++
  ["&outer_page_size=" ++ toString (cfg.outer_page_KiB * 1024),
   "&level=" ++ toString cfg.zstd_level] ++
  (if cfg.immutable then ["&immutable=1"] else []) ++
  (if cfg.unsafe_load then ["&nolock=1&outer_unsafe"] else [])

/-- The configuration of the literal URI scenario: unsafe_load true, threads 4,
inner_page_KiB 8 over defaults. -/
def c6cfg : Config :=
  { defaultConfig with unsafe_load := true, threads := 4, inner_page_KiB := 8 }

/-- Counterexample to claim C6 as stated: at the literal scenario the builder
emits noprefetch=1 immediately after threads (genomicsqlite.cc:193-196), not
as the final parameter as the claim orders it. -/
theorem uri_noprefetch_position_counterexample :
    genomicSQLiteURI (fun _ s => s) "/tmp/db" c6cfg =
      "file:/tmp/db?vfs=zstd&outer_cache_size=-65536&threads=4&noprefetch=1&outer_page_size=32768&level=6&nolock=1&outer_unsafe" ∧
    ("file:/tmp/db?vfs=zstd&outer_cache_size=-65536&threads=4&noprefetch=1&outer_page_size=32768&level=6&nolock=1&outer_unsafe" : String) ≠
      "file:/tmp/db?vfs=zstd&outer_cache_size=-65536&threads=4&outer_page_size=32768&level=6&nolock=1&outer_unsafe&noprefetch=1" := by
  exact ⟨rfl, by decide⟩

/-- Claim C6 (amended): for every non-web path and configuration,
genomicsqlite_uri returns file:<escaped-path>?vfs=zstd followed by parameters
in exactly this order: outer_cache_size = -64 x page_cache_MiB, threads, then
noprefetch=1 exactly when threads > 1 and inner_page_KiB < 16 and
force_prefetch is false (immediately after threads rather than last), then
mode if set, outer_page_size, level, immutable=1 if immutable, and
nolock=1&outer_unsafe if unsafe_load. -/
theorem genomicSQLiteURI_param_order (urlencode : Bool → String → String)
    (dbfile : String) (cfg : Config)
    (hweb : strHasPrefix "http:" dbfile = false ∧ strHasPrefix "https:" dbfile = false) :
    genomicSQLiteURI urlencode dbfile cfg =
      "file:" ++ urlencode true dbfile ++ "?vfs=zstd" ++
        joinStrings (uriTailParams cfg) ∧
    (noprefetchCond cfg = true ↔
      1 < cfg.threads ∧ cfg.inner_page_KiB < 16 ∧ cfg.force_prefetch = false) := by
  obtain ⟨h1, h2⟩ := hweb
  refine ⟨?_, by simp [noprefetchCond, and_assoc]⟩
  by_cases hp : noprefetchCond cfg = true <;>
  by_cases hm : cfg.mode = "" <;>
  by_cases hi : cfg.immutable = true <;>
  by_cases hu : cfg.unsafe_load = true <;>
  simp [genomicSQLiteURI, uriTailParams, joinStrings, h1, h2, hp, hm, hi, hu,
    String.append_assoc, -String.reduceAppend]

/-- Witness for the C6 theorem at the literal scenario. -/
theorem genomicSQLiteURI_param_order_witness :
    genomicSQLiteURI (fun _ s => s) "/tmp/db" c6cfg =
      "file:" ++ (fun (_ : Bool) (s : String) => s) true "/tmp/db" ++ "?vfs=zstd" ++
        joinStrings (uriTailParams c6cfg) ∧
    (noprefetchCond c6cfg = true ↔
      1 < c6cfg.threads ∧ c6cfg.inner_page_KiB < 16 ∧ c6cfg.force_prefetch = false) :=
  genomicSQLiteURI_param_order (fun _ s => s) "/tmp/db" c6cfg ⟨by decide, by decide⟩

theorem char_lt_irrefl (c : Char) : ¬ c < c := by
  simp [Char.lt_def]

/-- Byte-lexicographic comparison of character data, modelling the C++
std::string operator-less used by std::map key ordering. -/
def listCharLt : List Char → List Char → Bool
  | [], [] => false
  | [], _ :: _ => true
  | _ :: _, [] => false
  | a :: as, b :: bs =>
    if a < b then true else if b < a then false else listCharLt as bs

theorem listCharLt_append_left (l : List Char) :
    ∀ a b, listCharLt (l ++ a) (l ++ b) = listCharLt a b := by
  induction l with
  | nil => intro a b; rfl
  | cons c cs ih =>
    intro a b
    simp only [List.cons_append, listCharLt, if_neg (char_lt_irrefl c)]
    exact ih a b

theorem str_ext {a b : String} (h : a.data = b.data) : a = b := by
  cases a
  cases b
  exact congrArg String.mk h

theorem strAppend_eq_left (s a b : String) : s ++ a = s ++ b ↔ a = b := by
  constructor
  · intro h
    have hd : s.data ++ a.data = s.data ++ b.data := by
      have := congrArg String.data h
      rwa [String.data_append, String.data_append] at this
    exact str_ext (List.append_cancel_left hd)
  · intro h
    rw [h]

theorem str_empty_append (s : String) : "" ++ s = s :=
  str_ext (by rw [String.data_append]; rfl)

theorem strData_append_left (s a b : String) :
    (s ++ a).data = (s ++ b).data ↔ a.data = b.data := by
  rw [String.data_append, String.data_append]
  constructor
  · exact List.append_cancel_left
  · intro h
    rw [h]

theorem str_append_dot_ne_empty (s : String) : ¬ (s ++ "." = "") := by
  intro h
  have hd := congrArg String.data h
  rw [String.data_append] at hd
  simp at hd

/-- Ordered-map insertion over an ascending association list, modelling
std::map insertion with std::string keys (iteration order is the sorted key
order). -/
def mapInsert (k v : String) : List (String × String) → List (String × String)
  | [] => [(k, v)]
  | (k2, v2) :: rest =>
    if listCharLt k.data k2.data then (k, v) :: (k2, v2) :: rest
    else if k = k2 then (k, v) :: rest
    else (k2, v2) :: mapInsert k v rest

/-- Shallow embedding of GenomicSQLiteTuningSQL (genomicsqlite.cc:270-302);
hw stands for the external std::thread hardware_concurrency value. -/
def genomicSQLiteTuningSQL (hw : Int) (cfg : Config) (schema : String) : String :=
  let pfx := if schema = "" then "" else schema ++ "."
  let m : List (String × String) := []
  let m := mapInsert (pfx ++ "cache_size") (toString (-960 * cfg.page_cache_MiB)) m
  let m := mapInsert (pfx ++ "max_page_count") "2147483646" m
  let m := if pfx = "" then
      mapInsert "threads" (toString (if 0 ≤ cfg.threads then cfg.threads else min 8 hw)) m
    else m
  let m := if cfg.unsafe_load then
      mapInsert (pfx ++ "locking_mode") "EXCLUSIVE"
        (mapInsert (pfx ++ "synchronous") "OFF"
          (mapInsert (pfx ++ "journal_mode") "OFF" m))
    else mapInsert (pfx ++ "journal_mode") "MEMORY" m
  "PRAGMA " ++ pfx ++ "page_size=" ++ toString (cfg.inner_page_KiB * 1024) ++
    joinStrings (m.map (fun p => "; PRAGMA " ++ p.1 ++ "=" ++ p.2))

/-- The pragmas, with their schema-qualified names, in the lexicographic name
order in which the source's std::map iteration emits them. -/
def tuningPragmas (hw : Int) (cfg : Config) (schema : String) :
    List (String × String) :=
  let pfx := if schema = "" then "" else schema ++ "."
  [(pfx ++ "cache_size", toString (-960 * cfg.page_cache_MiB))] ++
  (if cfg.unsafe_load then
     [(pfx ++ "journal_mode", "OFF"), (pfx ++ "locking_mode", "EXCLUSIVE")]
   else [(pfx ++ "journal_mode", "MEMORY")]) ++
  [(pfx ++ "max_page_count", "2147483646")] ++
  (if cfg.unsafe_load then [(pfx ++ "synchronous", "OFF")] else []) ++
  (if schema = "" then
     [("threads", toString (if 0 ≤ cfg.threads then cfg.threads else min 8 hw))]
   else [])

/-- The configuration of the tuning counterexample: threads 4 over defaults. -/
def c7cfg : Config := { defaultConfig with threads := 4 }

/-- Counterexample to claim C7 as stated: the source stores the pragmas in a
std::map, so they are emitted in lexicographic name order - cache_size,
journal_mode, max_page_count, threads - not with journal_mode last as the
claim orders them. -/
theorem tuning_sql_order_counterexample :
    genomicSQLiteTuningSQL 8 c7cfg "" =
      "PRAGMA page_size=16384; PRAGMA cache_size=-983040; PRAGMA journal_mode=MEMORY; PRAGMA max_page_count=2147483646; PRAGMA threads=4" ∧
    ("PRAGMA page_size=16384; PRAGMA cache_size=-983040; PRAGMA journal_mode=MEMORY; PRAGMA max_page_count=2147483646; PRAGMA threads=4" : String) ≠
      "PRAGMA page_size=16384; PRAGMA cache_size=-983040; PRAGMA max_page_count=2147483646; PRAGMA threads=4; PRAGMA journal_mode=MEMORY" :=
  ⟨rfl, by decide⟩

/-- Claim C7 (amended): the tuning script's first statement sets page_size to
inner_page_KiB x 1024; the subsequent pragmas appear in lexicographic order of
their (schema-qualified) names: cache_size, journal_mode (MEMORY by default,
OFF under unsafe_load), locking_mode=EXCLUSIVE under unsafe_load,
max_page_count=2147483646, synchronous=OFF under unsafe_load, and threads last
(root schema only); for an attached schema every pragma is qualified with the
schema name and the threads pragma is omitted. -/
theorem tuning_sql_pragma_order (hw : Int) (cfg : Config) (schema : String) :
    genomicSQLiteTuningSQL hw cfg schema =
      "PRAGMA " ++ (if schema = "" then "" else schema ++ ".") ++ "page_size=" ++
        toString (cfg.inner_page_KiB * 1024) ++
        joinStrings ((tuningPragmas hw cfg schema).map
          (fun p => "; PRAGMA " ++ p.1 ++ "=" ++ p.2)) := by
  by_cases hs : schema = "" <;>
  by_cases hu : cfg.unsafe_load = true <;>
  simp +decide [genomicSQLiteTuningSQL, tuningPragmas, mapInsert, joinStrings, hs, hu,
    str_empty_append, str_append_dot_ne_empty, String.data_append,
    listCharLt_append_left, strAppend_eq_left, String.append_assoc,
    -String.reduceAppend]

/-!
## Connection open (GenomicSQLiteOpen, genomicsqlite.cc:369-401)

The host engine calls are modelled by an environment fixing their outcomes:
whether URI/tuning construction throws, the open return code and whether the
host stored a handle in *ppDb (per the host contract a handle is usually
returned even when open fails), and the result of executing the tuning
script. The result records the returned code and message, the caller-visible
*ppDb, whether an opened connection remains un-closed, and whether the tuning
script ran successfully.
-/

structure OpenEnv where
  uriErr : Option String
  openRc : Int
  openHandle : Bool
  errstrOpen : String
  execRc : Int
  execMsg : String
deriving DecidableEq, Repr

structure OpenResult where
  rc : Int
  errmsg : String
  ppDb : Bool
  handleLive : Bool
  tuned : Bool
deriving DecidableEq, Repr

/-- Shallow embedding of the int-returning GenomicSQLiteOpen
(genomicsqlite.cc:369-401). -/
def genomicSQLiteOpen (env : OpenEnv) : OpenResult :=
  match env.uriErr with
  | some msg => ⟨1, msg, false, false, false⟩
  | none =>
    if env.openRc ≠ 0 then
      ⟨env.openRc, env.errstrOpen, env.openHandle, env.openHandle, false⟩
    else if env.execRc ≠ 0 then
      ⟨env.execRc, env.execMsg, false, false, false⟩
    else
      ⟨0, "", true, true, true⟩

/-- Counterexample to claim C8 as stated: when the underlying open itself
fails (rc 14, cantopen) having allocated a handle, GenomicSQLiteOpen returns
the error code without closing that handle (genomicsqlite.cc:375-378 has no
sqlite3_close), so a live handle is left with the caller. -/
theorem open_failure_counterexample :
    (genomicSQLiteOpen ⟨none, 14, true, "unable to open database file", 0, ""⟩).rc ≠ 0 ∧
    (genomicSQLiteOpen ⟨none, 14, true, "unable to open database file", 0, ""⟩).handleLive
      = true := by
  exact ⟨by decide, rfl⟩

/-- Claim C8 (amended): GenomicSQLiteOpen succeeds (code 0) exactly when URI
construction, the underlying open, and the tuning script all succeed, and then
returns an open connection with the tuning applied; a URI-construction failure
propagates the message with no connection opened; a tuning-execution failure
closes the connection, nulls *ppDb, and propagates the message; an open
failure propagates the host error string but leaves *ppDb as the host set it,
without closing the partially-opened handle. -/
theorem genomicSQLiteOpen_error_handling (env : OpenEnv) :
    ((genomicSQLiteOpen env).rc = 0 ↔
      env.uriErr = none ∧ env.openRc = 0 ∧ env.execRc = 0) ∧
    ((genomicSQLiteOpen env).rc = 0 →
      (genomicSQLiteOpen env).tuned = true ∧ (genomicSQLiteOpen env).ppDb = true) ∧
    (∀ msg, env.uriErr = some msg →
      (genomicSQLiteOpen env).handleLive = false ∧
      (genomicSQLiteOpen env).errmsg = msg) ∧
    (env.uriErr = none → env.openRc = 0 → env.execRc ≠ 0 →
      (genomicSQLiteOpen env).ppDb = false ∧
      (genomicSQLiteOpen env).handleLive = false ∧
      (genomicSQLiteOpen env).errmsg = env.execMsg) ∧
    (env.uriErr = none → env.openRc ≠ 0 →
      (genomicSQLiteOpen env).handleLive = env.openHandle ∧
      (genomicSQLiteOpen env).errmsg = env.errstrOpen) := by
  obtain ⟨uriErr, openRc, openHandle, errstrOpen, execRc, execMsg⟩ := env
  cases uriErr with
  | some msg =>
    refine ⟨?_, ?_, ?_, ?_, ?_⟩ <;>
      simp [genomicSQLiteOpen]
  | none =>
    by_cases ho : openRc = 0 <;>
    by_cases he : execRc = 0 <;>
    refine ⟨?_, ?_, ?_, ?_, ?_⟩ <;>
      simp [genomicSQLiteOpen, ho, he]

/-!
## genomic_range_rowids prepared-statement pool (genomicsqlite.cc:689-834)

The per-module statement cache (map from table name to bounds plus a pool of
prepared statements) and the cursors borrowing from it are modelled as an
explicit transition system. A prepared statement is represented by the
(ceiling, floor) its SQL was generated with: Filter always passes explicit
in-range bounds to GenomicRangeRowidsSQL, so a freshly compiled statement is
tagged with the requested pair. Events are cursor Filter calls (with the
already-parsed bounds), a successful EOF on Next, an error on Next (which
drops the statement without returning it), and cursor Close.
-/

structure PoolStmt where
  ceiling : Int
  floor : Int
deriving DecidableEq, Repr

structure TableCache where
  ceiling : Int
  floor : Int
  pool : List PoolStmt
deriving DecidableEq, Repr

/-- The default-constructed table_stmt_cache (genomicsqlite.cc:691-694). -/
def defaultTableCache : TableCache := ⟨15, 0, []⟩

structure PoolCursor where
  tbl : String
  ceiling : Int
  floor : Int
  stmt : Option PoolStmt
deriving DecidableEq, Repr

structure PoolState where
  caches : List (String × TableCache)
  cursors : List (Nat × PoolCursor)
deriving DecidableEq, Repr

/-- Insert-or-update of an association list (map assignment). -/
def setAssoc {α β : Type} [DecidableEq α] (k : α) (v : β) :
    List (α × β) → List (α × β)
  | [] => [(k, v)]
  | (k2, v2) :: rest =>
    if k = k2 then (k, v) :: rest else (k2, v2) :: setAssoc k v rest

/-- GenomicRangeRowidsCursor::ReturnStmtToCache (genomicsqlite.cc:823-833):
push the borrowed statement back onto its table's pool only when the pool's
current bounds equal the bounds the cursor was filtered with; in either case
the cursor releases the statement. -/
def returnStmtToCache (st : PoolState) (cid : Nat) : PoolState :=
  match st.cursors.lookup cid with
  | none => st
  | some cur =>
    match cur.stmt with
    | none => st
    | some s =>
      let cache := (st.caches.lookup cur.tbl).getD defaultTableCache
      let cache2 :=
        if cache.ceiling = cur.ceiling ∧ cache.floor = cur.floor then
          { cache with pool := cache.pool ++ [s] }
        else cache
      { caches := setAssoc cur.tbl cache2 st.caches,
        cursors := setAssoc cid { cur with stmt := none } st.cursors }

/-- GenomicRangeRowidsCursor::Filter (genomicsqlite.cc:701-778): return any
borrowed statement, validate the bounds, find or create the table's cache
entry, wipe the pool when the bounds changed, then pop a pooled statement or
compile a fresh one tagged with the requested bounds. -/
def filterStep (st : PoolState) (cid : Nat) (tbl : String) (c f : Int) :
    PoolState :=
  let st := returnStmtToCache st cid
  if 0 ≤ f ∧ f ≤ c ∧ c ≤ 15 then
    let cache := (st.caches.lookup tbl).getD defaultTableCache
    let cache := if cache.ceiling ≠ c ∨ cache.floor ≠ f then ⟨c, f, []⟩ else cache
    match cache.pool with
    | [] =>
      { caches := setAssoc tbl ⟨cache.ceiling, cache.floor, []⟩ st.caches,
        cursors := setAssoc cid ⟨tbl, c, f, some ⟨c, f⟩⟩ st.cursors }
    | p :: ps =>
      { caches := setAssoc tbl ⟨cache.ceiling, cache.floor, (p :: ps).dropLast⟩ st.caches,
        cursors := setAssoc cid
          ⟨tbl, c, f, some ((p :: ps).getLast (by simp))⟩ st.cursors }
  else
    { st with cursors := setAssoc cid ⟨tbl, c, f, none⟩ st.cursors }

/-- A failed Next finalises the statement without returning it to the pool
(genomicsqlite.cc:784-787). -/
def dropStmt (st : PoolState) (cid : Nat) : PoolState :=
  match st.cursors.lookup cid with
  | none => st
  | some cur => { st with cursors := setAssoc cid { cur with stmt := none } st.cursors }

inductive PoolEvent where
  | filter (cid : Nat) (tbl : String) (ceiling floor : Int)
  | nextEof (cid : Nat)
  | nextError (cid : Nat)
  | close (cid : Nat)
deriving DecidableEq, Repr

def poolStep (st : PoolState) : PoolEvent → PoolState
  | .filter cid tbl c f => filterStep st cid tbl c f
  | .nextEof cid => returnStmtToCache st cid
  | .nextError cid => dropStmt st cid
  | .close cid => returnStmtToCache st cid

def initPoolState : PoolState := ⟨[], []⟩

def runPool (evs : List PoolEvent) : PoolState :=
  evs.foldl poolStep initPoolState

/-- Every pooled statement was compiled for its pool's current bounds, and
every borrowed statement matches its cursor's bounds. -/
def poolInv (st : PoolState) : Prop :=
  (∀ p ∈ st.caches, ∀ s ∈ p.2.pool,
    s.ceiling = p.2.ceiling ∧ s.floor = p.2.floor) ∧
  (∀ q ∈ st.cursors, ∀ s, q.2.stmt = some s →
    s.ceiling = q.2.ceiling ∧ s.floor = q.2.floor)

theorem lookup_mem {α β : Type} [BEq α] [LawfulBEq α] {l : List (α × β)}
    {k : α} {v : β} (h : List.lookup k l = some v) : (k, v) ∈ l := by
  induction l with
  | nil => simp [List.lookup] at h
  | cons p rest ih =>
    obtain ⟨k2, v2⟩ := p
    simp only [List.lookup] at h
    cases hbeq : k == k2 with
    | true =>
      simp only [hbeq] at h
      have hk : k = k2 := eq_of_beq hbeq
      have hv : v2 = v := by simpa using h
      exact List.mem_cons.mpr (Or.inl (by rw [hk, hv]))
    | false =>
      simp only [hbeq] at h
      exact List.mem_cons.mpr (Or.inr (ih h))

theorem mem_setAssoc {α β : Type} [DecidableEq α] {k : α} {v : β}
    {l : List (α × β)} {p : α × β} (h : p ∈ setAssoc k v l) :
    p = (k, v) ∨ p ∈ l := by
  induction l with
  | nil => simpa [setAssoc] using h
  | cons q rest ih =>
    obtain ⟨k2, v2⟩ := q
    simp only [setAssoc] at h
    split at h
    · rcases List.mem_cons.mp h with h | h
      · exact Or.inl h
      · exact Or.inr (List.mem_cons.mpr (Or.inr h))
    · rcases List.mem_cons.mp h with h | h
      · exact Or.inr (List.mem_cons.mpr (Or.inl h))
      · rcases ih h with h | h
        · exact Or.inl h
        · exact Or.inr (List.mem_cons.mpr (Or.inr h))

theorem lookup_setAssoc_self {α β : Type} [DecidableEq α] [BEq α] [LawfulBEq α]
    (k : α) (v : β) (l : List (α × β)) :
    List.lookup k (setAssoc k v l) = some v := by
  induction l with
  | nil => simp [setAssoc, List.lookup]
  | cons q rest ih =>
    obtain ⟨k2, v2⟩ := q
    simp only [setAssoc]
    split
    · simp [List.lookup]
    · rename_i hne
      have hbeq : (k == k2) = false := by
        simpa using hne
      simp [List.lookup, hbeq, ih]

theorem baseCache_inv (st : PoolState)
    (hc : ∀ p ∈ st.caches, ∀ s ∈ p.2.pool,
      s.ceiling = p.2.ceiling ∧ s.floor = p.2.floor) (tbl : String) :
    ∀ s ∈ ((st.caches.lookup tbl).getD defaultTableCache).pool,
      s.ceiling = ((st.caches.lookup tbl).getD defaultTableCache).ceiling ∧
      s.floor = ((st.caches.lookup tbl).getD defaultTableCache).floor := by
  cases hbase : st.caches.lookup tbl with
  | none =>
    intro s hs
    simp [defaultTableCache] at hs
  | some c0 =>
    intro s hs
    simp only [Option.getD_some] at hs ⊢
    exact hc (tbl, c0) (lookup_mem hbase) s hs

theorem returnStmt_eq_nocursor (st : PoolState) (cid : Nat)
    (hcur : st.cursors.lookup cid = none) : returnStmtToCache st cid = st := by
  unfold returnStmtToCache
  simp only [hcur]

theorem returnStmt_eq_nostmt (st : PoolState) (cid : Nat) (cur : PoolCursor)
    (hcur : st.cursors.lookup cid = some cur) (hstmt : cur.stmt = none) :
    returnStmtToCache st cid = st := by
  unfold returnStmtToCache
  simp only [hcur, hstmt]

theorem returnStmt_eq_of (st : PoolState) (cid : Nat) (cur : PoolCursor)
    (s : PoolStmt) (hcur : st.cursors.lookup cid = some cur)
    (hstmt : cur.stmt = some s) :
    returnStmtToCache st cid =
      { caches := setAssoc cur.tbl
          (if ((st.caches.lookup cur.tbl).getD defaultTableCache).ceiling = cur.ceiling ∧
              ((st.caches.lookup cur.tbl).getD defaultTableCache).floor = cur.floor then
            { (st.caches.lookup cur.tbl).getD defaultTableCache with
                pool := ((st.caches.lookup cur.tbl).getD defaultTableCache).pool ++ [s] }
          else (st.caches.lookup cur.tbl).getD defaultTableCache) st.caches,
        cursors := setAssoc cid { cur with stmt := none } st.cursors } := by
  unfold returnStmtToCache
  simp only [hcur, hstmt]

theorem returnStmt_preserves (st : PoolState) (cid : Nat) (h : poolInv st) :
    poolInv (returnStmtToCache st cid) := by
  obtain ⟨hc, hq⟩ := h
  cases hcur : st.cursors.lookup cid with
  | none => rw [returnStmt_eq_nocursor st cid hcur]; exact ⟨hc, hq⟩
  | some cur =>
    cases hstmt : cur.stmt with
    | none => rw [returnStmt_eq_nostmt st cid cur hcur hstmt]; exact ⟨hc, hq⟩
    | some s =>
      rw [returnStmt_eq_of st cid cur s hcur hstmt]
      have hcurmem : (cid, cur) ∈ st.cursors := lookup_mem hcur
      have hsb : s.ceiling = cur.ceiling ∧ s.floor = cur.floor :=
        hq (cid, cur) hcurmem s hstmt
      have hbase := baseCache_inv st hc cur.tbl
      constructor
      · intro p hp s2 hs2
        rcases mem_setAssoc hp with he | he
        · rw [he] at hs2 ⊢
          by_cases hb : ((st.caches.lookup cur.tbl).getD defaultTableCache).ceiling
                = cur.ceiling ∧
              ((st.caches.lookup cur.tbl).getD defaultTableCache).floor = cur.floor
          · simp only [if_pos hb] at hs2 ⊢
            rcases List.mem_append.mp hs2 with hm | hm
            · exact hbase s2 hm
            · have hse : s2 = s := by simpa using hm
              subst hse
              exact ⟨hsb.1.trans hb.1.symm, hsb.2.trans hb.2.symm⟩
          · simp only [if_neg hb] at hs2 ⊢
            exact hbase s2 hs2
        · exact hc p he s2 hs2
      · intro q hqm s2 hs2
        rcases mem_setAssoc hqm with he | he
        · rw [he] at hs2
          simp at hs2
        · exact hq q he s2 hs2

theorem filterStep_preserves (st : PoolState) (cid : Nat) (tbl : String)
    (c f : Int) (h : poolInv st) : poolInv (filterStep st cid tbl c f) := by
  obtain ⟨hc, hq⟩ := returnStmt_preserves st cid h
  have hbase := baseCache_inv (returnStmtToCache st cid) hc tbl
  unfold filterStep
  by_cases hv : 0 ≤ f ∧ f ≤ c ∧ c ≤ 15
  · simp only [if_pos hv]
    by_cases hw :
        (((returnStmtToCache st cid).caches.lookup tbl).getD defaultTableCache).ceiling ≠ c ∨
        (((returnStmtToCache st cid).caches.lookup tbl).getD defaultTableCache).floor ≠ f
    · simp only [if_pos hw]
      constructor
      · intro p hp s2 hs2
        rcases mem_setAssoc hp with he | he
        · rw [he] at hs2
          simp at hs2
        · exact hc p he s2 hs2
      · intro q hqm s2 hs2
        rcases mem_setAssoc hqm with he | he
        · rw [he] at hs2 ⊢
          simp only at hs2
          have : (⟨c, f⟩ : PoolStmt) = s2 := by
            simpa using hs2
          rw [← this]
          exact ⟨rfl, rfl⟩
        · exact hq q he s2 hs2
    · simp only [if_neg hw]
      push_neg at hw
      cases hpool :
          (((returnStmtToCache st cid).caches.lookup tbl).getD defaultTableCache).pool with
      | nil =>
        simp only [hpool]
        constructor
        · intro p hp s2 hs2
          rcases mem_setAssoc hp with he | he
          · rw [he] at hs2
            simp at hs2
          · exact hc p he s2 hs2
        · intro q hqm s2 hs2
          rcases mem_setAssoc hqm with he | he
          · rw [he] at hs2 ⊢
            have : (⟨c, f⟩ : PoolStmt) = s2 := by
              simpa using hs2
            rw [← this]
            exact ⟨rfl, rfl⟩
          · exact hq q he s2 hs2
      | cons p0 ps =>
        simp only [hpool]
        constructor
        · intro p hp s2 hs2
          rcases mem_setAssoc hp with he | he
          · rw [he] at hs2 ⊢
            simp only at hs2 ⊢
            have hm : s2 ∈ p0 :: ps := List.dropLast_subset _ hs2
            rw [← hpool] at hm
            exact hbase s2 hm
          · exact hc p he s2 hs2
        · intro q hqm s2 hs2
          rcases mem_setAssoc hqm with he | he
          · rw [he] at hs2 ⊢
            simp only at hs2 ⊢
            have hbase2 : ∀ s ∈ p0 :: ps,
                s.ceiling =
                  (((returnStmtToCache st cid).caches.lookup tbl).getD
                    defaultTableCache).ceiling ∧
                s.floor =
                  (((returnStmtToCache st cid).caches.lookup tbl).getD
                    defaultTableCache).floor := by
              rw [← hpool]
              exact hbase
            have hm : (p0 :: ps).getLast (by simp) ∈ p0 :: ps :=
              List.getLast_mem (by simp)
            have hb := hbase2 _ hm
            have hse : (p0 :: ps).getLast (by simp) = s2 :=
              Option.some.inj hs2
            rw [← hse]
            exact ⟨hb.1.trans hw.1, hb.2.trans hw.2⟩
          · exact hq q he s2 hs2
  · simp only [if_neg hv]
    constructor
    · exact hc
    · intro q hqm s2 hs2
      rcases mem_setAssoc hqm with he | he
      · rw [he] at hs2
        simp at hs2
      · exact hq q he s2 hs2

theorem dropStmt_preserves (st : PoolState) (cid : Nat) (h : poolInv st) :
    poolInv (dropStmt st cid) := by
  obtain ⟨hc, hq⟩ := h
  unfold dropStmt
  cases hcur : st.cursors.lookup cid with
  | none => exact ⟨hc, hq⟩
  | some cur =>
    simp only
    constructor
    · exact hc
    · intro q hqm s2 hs2
      rcases mem_setAssoc hqm with he | he
      · rw [he] at hs2
        simp at hs2
      · exact hq q he s2 hs2

theorem poolStep_preserves (st : PoolState) (e : PoolEvent) (h : poolInv st) :
    poolInv (poolStep st e) := by
  cases e with
  | filter cid tbl c f => exact filterStep_preserves st cid tbl c f h
  | nextEof cid => exact returnStmt_preserves st cid h
  | nextError cid => exact dropStmt_preserves st cid h
  | close cid => exact returnStmt_preserves st cid h

/-- Claim C9: along any sequence of cursor events, every statement residing in
a table's pool was compiled for the pool's current (ceiling, floor) bounds;
and when a cursor releases its borrowed statement (EOF or close), the
statement is pushed back onto its table's pool iff the pool's current bounds
equal the bounds the cursor was filtered with, and is dropped otherwise, the
cursor releasing it in either case. -/
theorem stmt_pool_bounds_invariant :
    (∀ evs : List PoolEvent, poolInv (runPool evs)) ∧
    (∀ (st : PoolState) (cid : Nat) (cur : PoolCursor) (s : PoolStmt),
      st.cursors.lookup cid = some cur → cur.stmt = some s →
      ((((st.caches.lookup cur.tbl).getD defaultTableCache).ceiling = cur.ceiling ∧
        ((st.caches.lookup cur.tbl).getD defaultTableCache).floor = cur.floor) →
        (returnStmtToCache st cid).caches.lookup cur.tbl =
          some { (st.caches.lookup cur.tbl).getD defaultTableCache with
            pool := ((st.caches.lookup cur.tbl).getD defaultTableCache).pool ++ [s] }) ∧
      (¬ (((st.caches.lookup cur.tbl).getD defaultTableCache).ceiling = cur.ceiling ∧
          ((st.caches.lookup cur.tbl).getD defaultTableCache).floor = cur.floor) →
        (returnStmtToCache st cid).caches.lookup cur.tbl =
          some ((st.caches.lookup cur.tbl).getD defaultTableCache)) ∧
      (returnStmtToCache st cid).cursors.lookup cid =
        some { cur with stmt := none }) := by
  constructor
  · have hrun : ∀ (evs : List PoolEvent) (st : PoolState),
        poolInv st → poolInv (evs.foldl poolStep st) := by
      intro evs
      induction evs with
      | nil => intro st h; exact h
      | cons e rest ih => intro st h; exact ih _ (poolStep_preserves st e h)
    have hinit : poolInv initPoolState := by
      constructor <;> intro p hp <;> simp [initPoolState] at hp
    exact fun evs => hrun evs _ hinit
  · intro st cid cur s hcur hstmt
    rw [returnStmt_eq_of st cid cur s hcur hstmt]
    refine ⟨fun hb => ?_, fun hb => ?_, ?_⟩
    · simp only [if_pos hb]
      exact lookup_setAssoc_self cur.tbl _ st.caches
    · simp only [if_neg hb]
      exact lookup_setAssoc_self cur.tbl _ st.caches
    · exact lookup_setAssoc_self cid _ st.cursors

/-- Witness for the C9 theorem: a concrete trace in which a statement is
compiled, returned at EOF, reborrowed, and the pool rebound, and the concrete
push-back equations of the release rule. -/
theorem stmt_pool_bounds_invariant_witness :
    poolInv (runPool [PoolEvent.filter 0 "feat" 2 1, PoolEvent.nextEof 0,
      PoolEvent.filter 1 "feat" 2 1, PoolEvent.filter 0 "feat" 3 0,
      PoolEvent.close 1, PoolEvent.close 0]) ∧
    (returnStmtToCache
        ⟨[("feat", ⟨2, 1, []⟩)], [(0, ⟨"feat", 2, 1, some ⟨2, 1⟩⟩)]⟩ 0).caches.lookup
      "feat" = some ⟨2, 1, [⟨2, 1⟩]⟩ ∧
    (returnStmtToCache
        ⟨[("feat", ⟨3, 0, []⟩)], [(0, ⟨"feat", 2, 1, some ⟨2, 1⟩⟩)]⟩ 0).caches.lookup
      "feat" = some ⟨3, 0, []⟩ := by
  refine ⟨stmt_pool_bounds_invariant.1 _, ?_, ?_⟩
  · have h := (stmt_pool_bounds_invariant.2
      ⟨[("feat", ⟨2, 1, []⟩)], [(0, ⟨"feat", 2, 1, some ⟨2, 1⟩⟩)]⟩ 0
      ⟨"feat", 2, 1, some ⟨2, 1⟩⟩ ⟨2, 1⟩ (by rfl) (by rfl)).1 (by decide)
    simpa using h
  · have h := (stmt_pool_bounds_invariant.2
      ⟨[("feat", ⟨3, 0, []⟩)], [(0, ⟨"feat", 2, 1, some ⟨2, 1⟩⟩)]⟩ 0
      ⟨"feat", 2, 1, some ⟨2, 1⟩⟩ ⟨2, 1⟩ (by rfl) (by rfl)).2.1 (by decide)
    simpa using h

/-!
## Two-bit nucleotide codec (genomicsqlite.cc:1197-1428)

The encoder nucleotides_twobit packs one 2-bit crumb per nucleotide, four to a
byte, after a header byte that records how many trailing crumbs the decoder
must ignore (except that a length-1 sequence is a single byte whose low two
bits are the nucleotide). Characters are modelled by their byte values; the
dna_crumb_table array becomes the function dnaCrumb, and the twobit_dna4mers
table becomes fourmer via the generator formula given in the source comment
(letters T, C, A, G by crumb value, four crumbs per byte, high crumb first).
-/

/-- dna_crumb_table (genomicsqlite.cc:1197-1213) as a function of the byte
value: A/a encode 2, C/c encode 1, G/g encode 3, T/t/U/u encode 0, all other
bytes 0xFF. -/
def dnaCrumb (n : Nat) : Nat :=
  if n = 65 ∨ n = 97 then 2
  else if n = 67 ∨ n = 99 then 1
  else if n = 71 ∨ n = 103 then 3
  else if n = 84 ∨ n = 85 ∨ n = 116 ∨ n = 117 then 0
  else 255

/-- The encoding loop of nucleotides_twobit (genomicsqlite.cc:1232-1248):
byte is the crumb accumulator, p the position i mod 4; returns the final
accumulator and the bytes emitted. A non-positive char yields -2, a
non-nucleotide char -1, as in the source. -/
def encLoop : List Char → Nat → Nat → Except Int (Nat × List Nat)
  | [], byte, _ => .ok (byte, [])
  | ch :: rest, byte, p =>
    if ch.toNat = 0 ∨ 128 ≤ ch.toNat then .error (-2)
    else
      if 3 < dnaCrumb ch.toNat then .error (-1)
      else
        if p = 3 then
          match encLoop rest 0 0 with
          | .error e => .error e
          | .ok pr => .ok (pr.1, (byte * 4 + dnaCrumb ch.toNat) :: pr.2)
        else encLoop rest (byte * 4 + dnaCrumb ch.toNat) (p + 1)

/-- Shallow embedding of nucleotides_twobit (genomicsqlite.cc:1215-1261),
returning the written buffer bytes (whose count is the C return value). -/
def nucleotides_twobit (seq : List Char) : Except Int (List Nat) :=
  if seq.length = 0 then .ok []
  else
    let trailing := (4 - seq.length % 4) % 4
    match encLoop seq 0 0 with
    | .error e => .error e
    | .ok pr =>
      let header := if 1 < seq.length then [trailing] else []
      let tail2 :=
        if trailing ≠ 0 then
          [if 1 < seq.length then pr.1 * 4 ^ trailing else pr.1]
        else []
      .ok (header ++ pr.2 ++ tail2)

/-- Shallow embedding of twobit_length (genomicsqlite.cc:1297-1304). -/
def twobit_length (data : List Nat) : Nat :=
  if data.length < 2 then data.length
  else 4 * (data.length - 1) - (data.headD 0) % 4

/-- The letter table of the decoder for DNA: T, C, A, G by crumb value. -/
def tcagChar (n : Nat) : Char :=
  if n = 0 then 'T' else if n = 1 then 'C' else if n = 2 then 'A' else 'G'

/-- One entry of twobit_dna4mers (genomicsqlite.cc:1341-1363), by the
generator formula from the source comment: the four crumbs of the byte,
high first. -/
def fourmer (b : Nat) : List Char :=
  [tcagChar (b / 64 % 4), tcagChar (b / 16 % 4), tcagChar (b / 4 % 4),
   tcagChar (b % 4)]

/-- The middle and final loops of twobit_nucleotides
(genomicsqlite.cc:1408-1416): whole 4-mers while at least four characters
remain, then the remainder crumb-by-crumb from the next byte. -/
def decodeRest : List Nat → Nat → List Char
  | _, 0 => []
  | [], _ + 1 => []
  | b :: rest, n + 1 =>
    if 4 ≤ n + 1 then fourmer b ++ decodeRest rest (n + 1 - 4)
    else (fourmer b).take (n + 1)

/-- Shallow embedding of twobit_nucleotides for DNA, i.e. twobit_dna
(genomicsqlite.cc:1388-1424): the blob bytes, an offset and a length. -/
def twobit_dna (data : List Nat) (ofs len : Nat) : List Char :=
  if data.length < 2 then
    if len = 0 then [] else [tcagChar (data.headD 0 % 4)]
  else
    let payload := data.drop (1 + ofs / 4)
    let first := ((fourmer (payload.headD 0)).drop (ofs % 4)).take len
    first ++ decodeRest (payload.drop 1) (len - first.length)

/-- Complete four-crumb groups of a crumb list, packed into bytes, high
crumb first. -/
def packBytes : List Nat → List Nat
  | a :: b :: c2 :: d :: rest =>
    (((a * 4 + b) * 4 + c2) * 4 + d) :: packBytes rest
  | _ => []

/-- The crumbs belonging to complete four-crumb groups. -/
def chunkPrefix : List Nat → List Nat
  | a :: b :: c2 :: d :: rest => a :: b :: c2 :: d :: chunkPrefix rest
  | _ => []

/-- The leftover crumbs after the complete four-crumb groups. -/
def chunkTail : List Nat → List Nat
  | _ :: _ :: _ :: _ :: rest => chunkTail rest
  | l => l

/-- The value of the accumulator after folding a partial group of crumbs. -/
def residVal (l : List Nat) : Nat :=
  l.foldl (fun acc c2 => acc * 4 + c2) 0

theorem alpha_facts (ch : Char)
    (h : ch = 'A' ∨ ch = 'C' ∨ ch = 'G' ∨ ch = 'T') :
    ch.toNat ≠ 0 ∧ ch.toNat < 128 ∧ dnaCrumb ch.toNat < 4 ∧
      tcagChar (dnaCrumb ch.toNat) = ch := by
  rcases h with h | h | h | h <;> subst h <;> refine ⟨by decide, by decide, by decide, by decide⟩

theorem encLoop_step (ch : Char) (rest : List Char) (byte p : Nat)
    (h0 : ch.toNat ≠ 0) (h128 : ch.toNat < 128) (hcr : dnaCrumb ch.toNat < 4)
    (hp : p ≠ 3) :
    encLoop (ch :: rest) byte p =
      encLoop rest (byte * 4 + dnaCrumb ch.toNat) (p + 1) := by
  simp only [encLoop]
  rw [if_neg (by omega), if_neg (by omega), if_neg hp]

theorem encLoop_step3 (ch : Char) (rest : List Char) (byte : Nat)
    (h0 : ch.toNat ≠ 0) (h128 : ch.toNat < 128) (hcr : dnaCrumb ch.toNat < 4) :
    encLoop (ch :: rest) byte 3 =
      (match encLoop rest 0 0 with
       | .error e => .error e
       | .ok pr => .ok (pr.1, (byte * 4 + dnaCrumb ch.toNat) :: pr.2)) := by
  simp only [encLoop]
  rw [if_neg (by omega), if_neg (by omega)]
  simp

theorem encLoop_chunk (a b c2 d : Char) (t : List Char)
    (ha : a.toNat ≠ 0 ∧ a.toNat < 128 ∧ dnaCrumb a.toNat < 4)
    (hb : b.toNat ≠ 0 ∧ b.toNat < 128 ∧ dnaCrumb b.toNat < 4)
    (hc : c2.toNat ≠ 0 ∧ c2.toNat < 128 ∧ dnaCrumb c2.toNat < 4)
    (hd : d.toNat ≠ 0 ∧ d.toNat < 128 ∧ dnaCrumb d.toNat < 4) :
    encLoop (a :: b :: c2 :: d :: t) 0 0 =
      (match encLoop t 0 0 with
       | .error e => .error e
       | .ok pr => .ok (pr.1,
           (((dnaCrumb a.toNat * 4 + dnaCrumb b.toNat) * 4 + dnaCrumb c2.toNat) * 4 +
             dnaCrumb d.toNat) :: pr.2)) := by
  rw [encLoop_step a _ _ _ ha.1 ha.2.1 ha.2.2 (by omega),
    encLoop_step b _ _ _ hb.1 hb.2.1 hb.2.2 (by omega),
    encLoop_step c2 _ _ _ hc.1 hc.2.1 hc.2.2 (by omega),
    encLoop_step3 d _ _ hd.1 hd.2.1 hd.2.2]
  norm_num

theorem encLoop_eq : ∀ (n : Nat) (s : List Char), s.length ≤ n →
    (∀ ch ∈ s, ch.toNat ≠ 0 ∧ ch.toNat < 128 ∧ dnaCrumb ch.toNat < 4) →
    encLoop s 0 0 =
      .ok (residVal (chunkTail (s.map (fun ch => dnaCrumb ch.toNat))),
        packBytes (s.map (fun ch => dnaCrumb ch.toNat))) := by
  intro n
  induction n with
  | zero =>
    intro s hs _
    have : s = [] := List.eq_nil_of_length_eq_zero (by omega)
    subst this
    rfl
  | succ n ih =>
    intro s hs hv
    match s with
    | [] => rfl
    | [a] =>
      have ha := hv a (by simp)
      rw [encLoop_step a _ _ _ ha.1 ha.2.1 ha.2.2 (by omega)]
      rfl
    | [a, b] =>
      have ha := hv a (by simp)
      have hb := hv b (by simp)
      rw [encLoop_step a _ _ _ ha.1 ha.2.1 ha.2.2 (by omega),
        encLoop_step b _ _ _ hb.1 hb.2.1 hb.2.2 (by omega)]
      rfl
    | [a, b, c2] =>
      have ha := hv a (by simp)
      have hb := hv b (by simp)
      have hc := hv c2 (by simp)
      rw [encLoop_step a _ _ _ ha.1 ha.2.1 ha.2.2 (by omega),
        encLoop_step b _ _ _ hb.1 hb.2.1 hb.2.2 (by omega),
        encLoop_step c2 _ _ _ hc.1 hc.2.1 hc.2.2 (by omega)]
      rfl
    | a :: b :: c2 :: d :: t =>
      have ha := hv a (by simp)
      have hb := hv b (by simp)
      have hc := hv c2 (by simp)
      have hd := hv d (by simp)
      rw [encLoop_chunk a b c2 d t ha hb hc hd]
      have ht : t.length ≤ n := by
        simp only [List.length_cons] at hs
        omega
      rw [ih t ht (fun ch hm => hv ch (by simp [hm]))]
      rfl

theorem fourmer_length (b : Nat) : (fourmer b).length = 4 := rfl

theorem decodeRest_eq_take (bytes : List Nat) :
    ∀ need, decodeRest bytes need = ((bytes.map fourmer).flatten).take need := by
  induction bytes with
  | nil =>
    intro need
    cases need with
    | zero => rfl
    | succ n => simp [decodeRest]
  | cons b rest ih =>
    intro need
    cases need with
    | zero => rfl
    | succ n =>
      simp only [decodeRest, List.map_cons, List.flatten_cons]
      by_cases h4 : 4 ≤ n + 1
      · rw [if_pos h4, ih]
        rw [List.take_append_eq_append_take, fourmer_length]
        have htk : List.take (n + 1) (fourmer b) = fourmer b :=
          List.take_of_length_le (by rw [fourmer_length]; omega)
        rw [htk]
      · rw [if_neg h4]
        rw [List.take_append_eq_append_take, fourmer_length]
        have : n + 1 - 4 = 0 := by omega
        rw [this]
        simp

theorem twobit_dna_zero_ofs (data : List Nat) (len : Nat)
    (h2 : 2 ≤ data.length) :
    twobit_dna data 0 len = (((data.drop 1).map fourmer).flatten).take len := by
  unfold twobit_dna
  rw [if_neg (by omega)]
  have hdrop : data.drop (1 + 0 / 4) = data.drop 1 := by norm_num
  cases hd : data.drop 1 with
  | nil =>
    exfalso
    have := List.length_drop 1 data
    rw [hd] at this
    simp at this
    omega
  | cons p0 prest =>
    simp only [hdrop, hd, List.headD_cons, Nat.zero_mod, List.drop_zero,
      List.drop_succ_cons, List.drop_nil, List.map_cons, List.flatten_cons]
    rw [decodeRest_eq_take]
    have hfl : ((fourmer p0).take len).length = min len 4 := by
      rw [List.length_take, fourmer_length]
    rw [hfl]
    by_cases h4 : 4 ≤ len
    · have hmin : min len 4 = 4 := by omega
      rw [hmin, List.take_append_eq_append_take, fourmer_length]
    · have hmin : min len 4 = len := by omega
      rw [hmin]
      have : len - len = 0 := by omega
      rw [this]
      simp only [List.take_zero, List.append_nil]
      rw [List.take_append_eq_append_take, fourmer_length]
      have : len - 4 = 0 := by omega
      rw [this]
      simp

theorem fourmer_pack (a b c2 d : Nat) (ha : a < 4) (hb : b < 4) (hc : c2 < 4)
    (hd : d < 4) :
    fourmer (((a * 4 + b) * 4 + c2) * 4 + d) =
      [tcagChar a, tcagChar b, tcagChar c2, tcagChar d] := by
  unfold fourmer
  have h1 : (((a * 4 + b) * 4 + c2) * 4 + d) / 64 % 4 = a := by omega
  have h2 : (((a * 4 + b) * 4 + c2) * 4 + d) / 16 % 4 = b := by omega
  have h3 : (((a * 4 + b) * 4 + c2) * 4 + d) / 4 % 4 = c2 := by omega
  have h4 : (((a * 4 + b) * 4 + c2) * 4 + d) % 4 = d := by omega
  rw [h1, h2, h3, h4]

theorem flatten_map_fourmer_packBytes :
    ∀ l : List Nat, (∀ v ∈ l, v < 4) →
      ((packBytes l).map fourmer).flatten = (chunkPrefix l).map tcagChar := by
  intro l
  induction l using packBytes.induct with
  | case1 a b c2 d rest ih =>
    intro hv
    have ha := hv a (by simp)
    have hb := hv b (by simp)
    have hc := hv c2 (by simp)
    have hd := hv d (by simp)
    simp only [packBytes, chunkPrefix, List.map_cons, List.flatten_cons]
    rw [fourmer_pack a b c2 d ha hb hc hd,
      ih (fun v hm => hv v (by simp [hm]))]
    rfl
  | case2 t h =>
    intro _
    rcases t with _ | ⟨a, _ | ⟨b, _ | ⟨c2, _ | ⟨d, r⟩⟩⟩⟩
    · rfl
    · rfl
    · rfl
    · rfl
    · exact (h a b c2 d r rfl).elim

theorem chunkPrefix_append_chunkTail : ∀ l : List Nat,
    chunkPrefix l ++ chunkTail l = l := by
  intro l
  induction l using packBytes.induct with
  | case1 a b c2 d rest ih =>
    simp only [chunkPrefix, chunkTail, List.cons_append, ih]
  | case2 t h =>
    rcases t with _ | ⟨a, _ | ⟨b, _ | ⟨c2, _ | ⟨d, r⟩⟩⟩⟩
    · rfl
    · rfl
    · rfl
    · rfl
    · exact (h a b c2 d r rfl).elim

theorem chunkTail_length : ∀ l : List Nat,
    (chunkTail l).length = l.length % 4 := by
  intro l
  induction l using packBytes.induct with
  | case1 a b c2 d rest ih =>
    simp only [chunkTail, List.length_cons, ih]
    omega
  | case2 t h =>
    rcases t with _ | ⟨a, _ | ⟨b, _ | ⟨c2, _ | ⟨d, r⟩⟩⟩⟩
    · rfl
    · rfl
    · rfl
    · rfl
    · exact (h a b c2 d r rfl).elim

theorem chunkPrefix_length : ∀ l : List Nat,
    (chunkPrefix l).length = l.length - l.length % 4 := by
  intro l
  have h1 := congrArg List.length (chunkPrefix_append_chunkTail l)
  rw [List.length_append, chunkTail_length] at h1
  omega

theorem packBytes_length : ∀ l : List Nat,
    (packBytes l).length = l.length / 4 := by
  intro l
  induction l using packBytes.induct with
  | case1 a b c2 d rest ih =>
    simp only [packBytes, List.length_cons, ih]
    omega
  | case2 t h =>
    rcases t with _ | ⟨a, _ | ⟨b, _ | ⟨c2, _ | ⟨d, r⟩⟩⟩⟩
    · rfl
    · norm_num [packBytes]
    · norm_num [packBytes]
    · norm_num [packBytes]
    · exact (h a b c2 d r rfl).elim

theorem mem_chunkTail : ∀ (l : List Nat) (v : Nat), v ∈ chunkTail l → v ∈ l := by
  intro l
  induction l using packBytes.induct with
  | case1 a b c2 d rest ih =>
    intro v hv
    simp only [chunkTail] at hv
    simp [ih v hv]
  | case2 t h =>
    intro v hv
    rcases t with _ | ⟨a, _ | ⟨b, _ | ⟨c2, _ | ⟨d, r⟩⟩⟩⟩
    · exact hv
    · exact hv
    · exact hv
    · exact hv
    · exact (h a b c2 d r rfl).elim

theorem tailByte_take (lt : List Nat) (hv : ∀ v ∈ lt, v < 4)
    (hr : lt.length = 1 ∨ lt.length = 2 ∨ lt.length = 3) :
    (fourmer (residVal lt * 4 ^ (4 - lt.length))).take lt.length =
      lt.map tcagChar := by
  rcases lt with _ | ⟨a, _ | ⟨b, _ | ⟨c2, _ | ⟨d, r⟩⟩⟩⟩
  · simp at hr
  · have ha := hv a (by simp)
    have e1 : residVal [a] = a := by simp [residVal]
    unfold fourmer
    rw [e1]
    have h1 : a * 4 ^ (4 - 1) / 64 % 4 = a := by omega
    simp only [List.length_cons, List.length_nil, List.take_succ_cons,
      List.take_zero, List.map_cons, List.map_nil]
    rw [h1]
  · have ha := hv a (by simp)
    have hb := hv b (by simp)
    have e1 : residVal [a, b] = a * 4 + b := by simp [residVal]
    unfold fourmer
    rw [e1]
    have h1 : (a * 4 + b) * 4 ^ (4 - 2) / 64 % 4 = a := by omega
    have h2 : (a * 4 + b) * 4 ^ (4 - 2) / 16 % 4 = b := by omega
    simp only [List.length_cons, List.length_nil, List.take_succ_cons,
      List.take_zero, List.map_cons, List.map_nil]
    rw [h1, h2]
  · have ha := hv a (by simp)
    have hb := hv b (by simp)
    have hc := hv c2 (by simp)
    have e1 : residVal [a, b, c2] = (a * 4 + b) * 4 + c2 := by simp [residVal]
    unfold fourmer
    rw [e1]
    have h1 : ((a * 4 + b) * 4 + c2) * 4 ^ (4 - 3) / 64 % 4 = a := by omega
    have h2 : ((a * 4 + b) * 4 + c2) * 4 ^ (4 - 3) / 16 % 4 = b := by omega
    have h3 : ((a * 4 + b) * 4 + c2) * 4 ^ (4 - 3) / 4 % 4 = c2 := by omega
    simp only [List.length_cons, List.length_nil, List.take_succ_cons,
      List.take_zero, List.map_cons, List.map_nil]
    rw [h1, h2, h3]
  · simp at hr

/-- Claim C10: for every nonempty string over A, C, G, T, encoding with
nucleotides_twobit yields a buffer b of at most (length + 7) / 4 bytes with
twobit_length b = length, and twobit_dna b 0 length decodes back to the
original string; a length-1 input is encoded in a single byte whose low two
bits are the nucleotide's crumb. -/
theorem nucleotides_twobit_roundtrip (s : List Char) (hne : s ≠ [])
    (halpha : ∀ ch ∈ s, ch = 'A' ∨ ch = 'C' ∨ ch = 'G' ∨ ch = 'T') :
    ∃ b, nucleotides_twobit s = .ok b ∧
      b.length ≤ (s.length + 7) / 4 ∧
      twobit_length b = s.length ∧
      twobit_dna b 0 s.length = s ∧
      (s.length = 1 → b = [dnaCrumb (s.headD 'T').toNat] ∧
        dnaCrumb (s.headD 'T').toNat < 4) := by
  have hv : ∀ ch ∈ s, ch.toNat ≠ 0 ∧ ch.toNat < 128 ∧ dnaCrumb ch.toNat < 4 := by
    intro ch hm
    have f := alpha_facts ch (halpha ch hm)
    exact ⟨f.1, f.2.1, f.2.2.1⟩
  have henc := encLoop_eq s.length s le_rfl hv
  have hcrv : ∀ v ∈ s.map (fun ch => dnaCrumb ch.toNat), v < 4 := by
    intro v hm
    obtain ⟨ch, hch, he⟩ := List.mem_map.mp hm
    rw [← he]
    exact (hv ch hch).2.2
  have hcrlen : (s.map (fun ch => dnaCrumb ch.toNat)).length = s.length :=
    List.length_map s _
  have hmap : (s.map (fun ch => dnaCrumb ch.toNat)).map tcagChar = s := by
    rw [List.map_map]
    have : ∀ ch ∈ s, (tcagChar ∘ fun ch => dnaCrumb ch.toNat) ch = id ch := by
      intro ch hm
      exact (alpha_facts ch (halpha ch hm)).2.2.2
    rw [List.map_congr_left this, List.map_id]
  have hlen0 : s.length ≠ 0 := by
    intro h
    exact hne (List.eq_nil_of_length_eq_zero h)
  rcases Nat.lt_or_ge s.length 2 with hlt | hge
  · -- length 1
    have hlen1 : s.length = 1 := by omega
    obtain ⟨a, hs⟩ := List.length_eq_one.mp hlen1
    subst hs
    have ha := alpha_facts a (halpha a (by simp))
    have hcr4 : dnaCrumb a.toNat < 4 := ha.2.2.1
    refine ⟨[dnaCrumb a.toNat], ?_, ?_, ?_, ?_, ?_⟩
    · unfold nucleotides_twobit
      rw [if_neg (by simp)]
      rw [henc]
      simp [residVal, packBytes, chunkTail]
    · simp
    · rfl
    · unfold twobit_dna
      rw [if_pos (by simp)]
      rw [if_neg (by simp)]
      have : dnaCrumb a.toNat % 4 = dnaCrumb a.toNat := Nat.mod_eq_of_lt hcr4
      simp only [List.headD_cons, this]
      rw [ha.2.2.2]
    · intro _
      exact ⟨rfl, hcr4⟩
  · -- length at least 2
    have h1lt : 1 < s.length := hge
    by_cases hr0 : s.length % 4 = 0
    · -- no trailing crumbs
      have htr : (4 - s.length % 4) % 4 = 0 := by omega
      have hb : nucleotides_twobit s =
          .ok (0 :: packBytes (s.map (fun ch => dnaCrumb ch.toNat))) := by
        unfold nucleotides_twobit
        rw [if_neg hlen0, henc]
        simp only [htr]
        rw [if_pos h1lt, if_neg (by simp)]
        simp
      have hct : chunkTail (s.map (fun ch => dnaCrumb ch.toNat)) = [] := by
        apply List.eq_nil_of_length_eq_zero
        rw [chunkTail_length, hcrlen, hr0]
      have hcp : chunkPrefix (s.map (fun ch => dnaCrumb ch.toNat)) =
          s.map (fun ch => dnaCrumb ch.toNat) := by
        have := chunkPrefix_append_chunkTail (s.map (fun ch => dnaCrumb ch.toNat))
        rwa [hct, List.append_nil] at this
      have hblen : (0 :: packBytes (s.map (fun ch => dnaCrumb ch.toNat))).length =
          1 + s.length / 4 := by
        simp [packBytes_length, hcrlen]
        omega
      refine ⟨_, hb, ?_, ?_, ?_, ?_⟩
      · rw [hblen]
        omega
      · unfold twobit_length
        rw [hblen]
        rw [if_neg (by omega)]
        simp only [List.headD_cons]
        omega
      · rw [twobit_dna_zero_ofs _ _ (by rw [hblen]; omega)]
        simp only [List.drop_succ_cons, List.drop_zero]
        rw [flatten_map_fourmer_packBytes _ hcrv, hcp]
        have : (((s.map (fun ch => dnaCrumb ch.toNat))).map tcagChar).length =
            s.length := by
          rw [List.length_map, hcrlen]
        rw [List.take_of_length_le (by rw [this]), hmap]
      · intro h
        omega
    · -- one to three trailing crumbs
      have hrlt : s.length % 4 < 4 := Nat.mod_lt _ (by omega)
      have htr : (4 - s.length % 4) % 4 = 4 - s.length % 4 := by omega
      have hltlen : (chunkTail (s.map (fun ch => dnaCrumb ch.toNat))).length =
          s.length % 4 := by
        rw [chunkTail_length, hcrlen]
      have hb : nucleotides_twobit s =
          .ok ((4 - s.length % 4) ::
            (packBytes (s.map (fun ch => dnaCrumb ch.toNat)) ++
              [residVal (chunkTail (s.map (fun ch => dnaCrumb ch.toNat))) *
                4 ^ (4 - s.length % 4)])) := by
        unfold nucleotides_twobit
        rw [if_neg hlen0, henc]
        simp only [htr]
        rw [if_pos h1lt, if_pos (by omega), if_pos h1lt]
        simp
      have hblen :
          ((4 - s.length % 4) ::
            (packBytes (s.map (fun ch => dnaCrumb ch.toNat)) ++
              [residVal (chunkTail (s.map (fun ch => dnaCrumb ch.toNat))) *
                4 ^ (4 - s.length % 4)])).length = 2 + s.length / 4 := by
        simp [packBytes_length, hcrlen]
        omega
      refine ⟨_, hb, ?_, ?_, ?_, ?_⟩
      · rw [hblen]
        omega
      · unfold twobit_length
        rw [hblen]
        rw [if_neg (by omega)]
        simp only [List.headD_cons]
        have : (4 - s.length % 4) % 4 = 4 - s.length % 4 := htr
        rw [this]
        omega
      · rw [twobit_dna_zero_ofs _ _ (by rw [hblen]; omega)]
        simp only [List.drop_succ_cons, List.drop_zero]
        rw [List.map_append, List.flatten_append,
          flatten_map_fourmer_packBytes _ hcrv]
        simp only [List.map_cons, List.map_nil, List.flatten_cons,
          List.flatten_nil, List.append_nil]
        rw [List.take_append_eq_append_take]
        have hcpl : ((chunkPrefix (s.map (fun ch => dnaCrumb ch.toNat))).map
            tcagChar).length = s.length - s.length % 4 := by
          rw [List.length_map, chunkPrefix_length, hcrlen]
        have htk1 : List.take s.length
            ((chunkPrefix (s.map (fun ch => dnaCrumb ch.toNat))).map tcagChar) =
            (chunkPrefix (s.map (fun ch => dnaCrumb ch.toNat))).map tcagChar :=
          List.take_of_length_le (by rw [hcpl]; omega)
        rw [htk1, hcpl]
        have hrem : s.length - (s.length - s.length % 4) = s.length % 4 := by
          omega
        rw [hrem]
        have htb := tailByte_take (chunkTail (s.map (fun ch => dnaCrumb ch.toNat)))
          (fun v hm => hcrv v (mem_chunkTail _ v hm)) (by omega)
        rw [hltlen] at htb
        rw [htb]
        rw [← List.map_append, chunkPrefix_append_chunkTail, hmap]
      · intro h
        omega

/-- Witness for the C10 theorem on the concrete sequence ACGT. -/
theorem nucleotides_twobit_roundtrip_witness :
    ∃ b, nucleotides_twobit ['A', 'C', 'G', 'T'] = .ok b ∧
      b.length ≤ (['A', 'C', 'G', 'T'].length + 7) / 4 ∧
      twobit_length b = ['A', 'C', 'G', 'T'].length ∧
      twobit_dna b 0 ['A', 'C', 'G', 'T'].length = ['A', 'C', 'G', 'T'] ∧
      (['A', 'C', 'G', 'T'].length = 1 →
        b = [dnaCrumb (['A', 'C', 'G', 'T'].headD 'T').toNat] ∧
        dnaCrumb (['A', 'C', 'G', 'T'].headD 'T').toNat < 4) :=
  nucleotides_twobit_roundtrip ['A', 'C', 'G', 'T'] (by decide) (by decide)
